import Mathlib

/-!
# Verification of the modernjs-send static-file responder

A shallow embedding of the request-to-response logic of the `modernjs-send`
repository (TypeScript): the `SendStream` class of `src/lib/send.ts`, the
bundled `range-parser` module, and the small helpers they use.  JavaScript
strings are modelled as Lean `String`s (manipulated through their `.data`
character lists so that everything reduces in the kernel), JavaScript numbers
occurring in the relevant code paths are integers and are modelled as `Int`
(with `NaN` represented by `Option.none` where it can arise), and the
filesystem, `Date.parse`, `fresh`, `mime` and `etag` collaborators are
abstract oracles supplied as inputs.
-/

namespace Send

/-! ## List and string utilities -/

/-- JavaScript `str.split(sep)` for a single separator character, on character
lists: `"".split` gives `[""]`, separators at the ends produce empty pieces. -/
def splitListP (p : Char → Bool) : List Char → List (List Char)
  | [] => [[]]
  | c :: cs =>
    if p c then [] :: splitListP p cs
    else
      match splitListP p cs with
      | [] => [[c]]
      | g :: gs => (c :: g) :: gs

/-- `str.split(c)` (single separator character). -/
def splitListC (sep : Char) (cs : List Char) : List (List Char) :=
  splitListP (fun c => c = sep) cs

/-- Decide whether `pre` is a prefix of `l`. -/
def isPrefixList : List Char → List Char → Bool
  | [], _ => true
  | _ :: _, [] => false
  | a :: as, b :: bs => a = b && isPrefixList as bs

/-- JavaScript `hay.indexOf(needle) !== -1`: contiguous-substring occurrence. -/
def containsSub (hay needle : List Char) : Bool :=
  match hay with
  | [] => needle.isEmpty
  | _ :: t => isPrefixList needle hay || containsSub t needle

/-- ASCII lowercasing of a string (Node lowercases header names). -/
def lowerStr (s : String) : String :=
  String.mk (s.data.map Char.toLower)

/-- JavaScript `str.substring(a, b)` for `a ≤ b` (used by `parseTokenList`). -/
def substr (cs : List Char) (a b : Nat) : String :=
  String.mk ((cs.drop a).take (b - a))

theorem splitListP_ne_nil (p : Char → Bool) (l : List Char) :
    splitListP p l ≠ [] := by
  induction l with
  | nil => simp [splitListP]
  | cons c cs ih =>
    simp only [splitListP]
    split
    · simp
    · match h : splitListP p cs with
      | [] => exact absurd h ih
      | g :: gs => simp

/-- A list without separator characters splits into itself alone. -/
theorem splitListP_eq_self {p : Char → Bool} {l : List Char}
    (h : ∀ c ∈ l, p c = false) : splitListP p l = [l] := by
  induction l with
  | nil => rfl
  | cons c cs ih =>
    have hc : p c = false := h c (by simp)
    have ih' := ih (fun x hx => h x (by simp [hx]))
    simp [splitListP, hc, ih']

/-- Splitting on a finer separator predicate factors through splitting on a
coarser one. -/
theorem splitListP_refine {p q : Char → Bool} (hq : ∀ c, q c = true → p c = true) :
    ∀ l : List Char,
      splitListP p l = ((splitListP q l).map (splitListP p)).flatten
  | [] => by simp [splitListP]
  | c :: cs => by
    have hrec := splitListP_refine hq cs
    by_cases hqc : q c = true
    · have hpc : p c = true := hq c hqc
      have h1 : splitListP q (c :: cs) = [] :: splitListP q cs := by
        simp [splitListP, hqc]
      have h2 : splitListP p (c :: cs) = [] :: splitListP p cs := by
        simp [splitListP, hpc]
      rw [h1, h2, List.map_cons, List.flatten_cons, hrec]
      rfl
    · have hqc' : q c = false := by simpa using hqc
      match hsq : splitListP q cs with
      | [] => exact absurd hsq (splitListP_ne_nil q cs)
      | g :: gs =>
        rw [hsq] at hrec
        simp only [List.map_cons, List.flatten_cons] at hrec
        have h1 : splitListP q (c :: cs) = (c :: g) :: gs := by
          simp [splitListP, hqc', hsq]
        by_cases hpc : p c = true
        · have h2 : splitListP p (c :: cs) = [] :: splitListP p cs := by
            simp [splitListP, hpc]
          have h3 : splitListP p (c :: g) = [] :: splitListP p g := by
            simp [splitListP, hpc]
          rw [h1, List.map_cons, List.flatten_cons, h3, h2, hrec, List.cons_append]
        · have hpc' : p c = false := by simpa using hpc
          match hsp : splitListP p g with
          | [] => exact absurd hsp (splitListP_ne_nil p g)
          | h₁ :: t₁ =>
            match hspc : splitListP p cs with
            | [] => exact absurd hspc (splitListP_ne_nil p cs)
            | h₂ :: t₂ =>
              rw [hsp, hspc, List.cons_append] at hrec
              have h2 : splitListP p (c :: cs) = (c :: h₂) :: t₂ := by
                simp [splitListP, hpc', hspc]
              have h3 : splitListP p (c :: g) = (c :: h₁) :: t₁ := by
                simp [splitListP, hpc', hsp]
              rw [h1, List.map_cons, List.flatten_cons, h3, h2, List.cons_append]
              have he : h₂ = h₁ := (List.cons.injEq .. ▸ hrec).1
              have ht : t₂ = t₁ ++ (gs.map (splitListP p)).flatten :=
                (List.cons.injEq .. ▸ hrec).2
              rw [he, ht]

/-- Membership of a separator-free piece survives refining the split. -/
theorem mem_splitListP_refine {p q : Char → Bool} {l d : List Char}
    (hq : ∀ c, q c = true → p c = true) (hd : ∀ c ∈ d, p c = false)
    (hmem : d ∈ splitListP q l) : d ∈ splitListP p l := by
  rw [splitListP_refine hq l]
  refine List.mem_flatten.2 ⟨splitListP p d, List.mem_map_of_mem _ hmem, ?_⟩
  rw [splitListP_eq_self hd]
  simp

/-! ## The bundled `range-parser` module

Embedding of `rangeParser` and `combineRanges` from the repository module
`range-parser` (file `src/unnamed/part_003`).  JavaScript `parseInt(s, 10)`
yields `NaN` exactly when no leading digits are found, which is modelled by
`Option Int`; all arithmetic on successfully parsed components is exact
integer arithmetic. -/

/-- A parsed byte range `{ start, end }`.  The JavaScript field `end` is a
Lean keyword, so it is named `stop` here. -/
structure IRangeItem where
  start : Int
  stop : Int
deriving DecidableEq, Repr

/-- A byte range carrying the `index` field used internally by
`combineRanges`. -/
structure IRangeIdx where
  start : Int
  stop : Int
  index : Nat
deriving DecidableEq, Repr

/-- JavaScript `parseInt(s, 10)`: skip leading whitespace, read an optional
sign and then leading decimal digits; `NaN` (here `none`) when no digit is
found. -/
def jsParseInt (s : String) : Option Int :=
  let cs := s.data.dropWhile (fun c => c = ' ' || c = '\t' || c = '\n' || c = '\r')
  let sign : Int := if cs.head? = some '-' then -1 else 1
  let cs := if cs.head? = some '-' || cs.head? = some '+' then cs.tail else cs
  let digits := cs.takeWhile Char.isDigit
  if digits.isEmpty then none
  else some (sign * (digits.foldl (fun acc c => acc * 10 + (c.toNat - 48)) 0 : Nat))

/-- One iteration of the parsing loop of `rangeParser`: split an entry of the
comma-separated list on `-`, apply the `-nnn` / `nnn-` rules, clamp the
last-byte position, and drop invalid or unsatisfiable entries.  `range[1]` is
`undefined` (parsing to `NaN`) when the entry contains no `-`. -/
def parseOneRange (size : Int) (s : List Char) : Option IRangeItem :=
  let range := splitListC '-' s
  let start0 := jsParseInt (String.mk (range.headD []))
  let end0 := match range.get? 1 with
    | some t => jsParseInt (String.mk t)
    | none => none
  let se : Option Int × Option Int :=
    match start0, end0 with
    | none, e => (e.map (fun x => size - x), some (size - 1))
    | some st, none => (some st, some (size - 1))
    | some st, some e => (some st, some e)
  match se with
  | (some st, some e) =>
    let e := if e > size - 1 then size - 1 else e
    if st > e || st < 0 then none else some ⟨st, e⟩
  | _ => none

/-- `sortByRangeStart` comparator of the source, as the total preorder it
sorts by. -/
def startLE (a b : IRangeIdx) : Prop := a.start ≤ b.start

/-- `sortByRangeIndex` comparator of the source, as the total preorder it
sorts by. -/
def indexLE (a b : IRangeIdx) : Prop := a.index ≤ b.index

instance : DecidableRel startLE := fun a b => inferInstanceAs (Decidable (a.start ≤ b.start))

instance : DecidableRel indexLE := fun a b => inferInstanceAs (Decidable (a.index ≤ b.index))

instance : IsTotal IRangeIdx startLE := ⟨fun a b => Int.le_total a.start b.start⟩

instance : IsTrans IRangeIdx startLE := ⟨fun _ _ _ h₁ h₂ => le_trans h₁ h₂⟩

instance : IsTotal IRangeIdx indexLE := ⟨fun a b => Nat.le_total a.index b.index⟩

instance : IsTrans IRangeIdx indexLE := ⟨fun _ _ _ h₁ h₂ => le_trans h₁ h₂⟩

/-- `mapWithIndex` of the source: attach each range its position. -/
def mapWithIndex (l : List IRangeItem) : List IRangeIdx :=
  l.enum.map (fun p => ⟨p.2.start, p.2.stop, p.1⟩)

/-- `mapWithoutIndex` of the source: strip the `index` field. -/
def mapWithoutIndex (r : IRangeIdx) : IRangeItem := ⟨r.start, r.stop⟩

/-- The in-place merge loop of `combineRanges`, written functionally:
`cur` is `ordered[j]`, the list argument is the remaining `ordered[i..]`.
A range starting beyond `cur.stop + 1` is emitted as the next output; a range
extending past `cur.stop` widens `cur` and takes the minimum index; a range
wholly contained in `cur` is skipped (its index is not taken). -/
def mergeLoop (cur : IRangeIdx) : List IRangeIdx → List IRangeIdx
  | [] => [cur]
  | r :: rest =>
    if cur.stop + 1 < r.start then cur :: mergeLoop r rest
    else if cur.stop < r.stop then mergeLoop ⟨cur.start, r.stop, min cur.index r.index⟩ rest
    else mergeLoop cur rest

/-- `combineRanges` before the final `mapWithoutIndex`: index, stable-sort by
start (JavaScript `Array.prototype.sort` is stable; Mathlib `insertionSort`
is the stable sort of the same preorder), merge, stable-sort by index. -/
def combineRangesIdx (ranges : List IRangeItem) : List IRangeIdx :=
  let ordered := (mapWithIndex ranges).insertionSort startLE
  let merged := match ordered with
    | [] => []
    | c :: rest => mergeLoop c rest
  merged.insertionSort indexLE

/-- `combineRanges` of the source. -/
def combineRanges (ranges : List IRangeItem) : List IRangeItem :=
  (combineRangesIdx ranges).map mapWithoutIndex

/-- Result of `rangeParser`: `-2` (malformed, no `=`), `-1` (no satisfiable
range), or the list of ranges. -/
inductive ParseRangeResult where
  | malformed
  | unsatisfiable
  | ranges (l : List IRangeItem)
deriving DecidableEq, Repr

/-- The part of the header after the first `=` (JavaScript
`str.slice(str.indexOf("=") + 1)`), or `none` when there is no `=`. -/
def sliceAfterEq (str : String) : Option (List Char) :=
  match splitListC '=' str.data with
  | [] => none
  | [_] => none
  | _ :: rest => some (List.intercalate ['='] rest)

/-- `rangeParser(size, str, options)` of the source. -/
def rangeParser (size : Int) (str : String) (combine : Bool) : ParseRangeResult :=
  match sliceAfterEq str with
  | none => .malformed
  | some s =>
    let arr := splitListC ',' s
    let ranges := arr.filterMap (parseOneRange size)
    if ranges.length < 1 then .unsatisfiable
    else .ranges (if combine then combineRanges ranges else ranges)

example : rangeParser 3 "bytes=-5" true = .unsatisfiable := by decide
example : rangeParser 10 "bytes=-5" true = .ranges [⟨5, 9⟩] := by decide
example : rangeParser 10 "bytes=0-100" true = .ranges [⟨0, 9⟩] := by decide
example : rangeParser 10 "malformed" true = .malformed := by decide
example : rangeParser 1000 "bytes=0-499,601-999,500-600" true =
    .ranges [⟨0, 999⟩] := by decide
example : rangeParser 100 "bytes=5-6,0-1" true = .ranges [⟨5, 6⟩, ⟨0, 1⟩] := by decide
example : rangeParser 100 "bytes=2-3,20-30,0-10" true =
    .ranges [⟨20, 30⟩, ⟨0, 10⟩] := by decide
example : rangeParser 100 "bytes=2-3,20-30,0-10" false =
    .ranges [⟨2, 3⟩, ⟨20, 30⟩, ⟨0, 10⟩] := by decide

/-! ## POSIX path helpers used by `SendStream.pipe`

The code runs on Node's `path` module with `sep = "/"`; these are the
`normalize`, `join` and `resolve` of `path.posix`, embedded at the level of
`/`-separated segments exactly as Node's `normalizeString` processes them. -/

/-- One step of Node's `normalizeString` over the accumulated segments
(held in reverse): empty and `.` segments are dropped; `..` pops the previous
segment, or is kept (relative paths) / dropped (absolute paths) when there is
nothing to pop or the previous segment is itself `..`. -/
def normStep (allowAboveRoot : Bool) (acc : List String) (c : String) : List String :=
  if c = "" || c = "." then acc
  else if c = ".." then
    match acc with
    | [] => if allowAboveRoot then [".."] else []
    | a :: rest =>
      if a = ".." then (if allowAboveRoot then ".." :: a :: rest else a :: rest)
      else rest
  else c :: acc

/-- Node `normalizeString`: resolve `.` and `..` segments. -/
def normalizeSegs (allowAboveRoot : Bool) (segs : List String) : List String :=
  (segs.foldl (normStep allowAboveRoot) []).reverse

/-- `str.split("/")` as a list of strings. -/
def splitSlash (s : String) : List String :=
  (splitListC '/' s.data).map String.mk

/-- Node `path.posix.normalize`. -/
def posixNormalize (p : String) : String :=
  if p = "" then "."
  else
    let isAbs := p.data.head? = some '/'
    let trailing := p.data.getLast? = some '/'
    let segs := normalizeSegs (!isAbs) (splitSlash p)
    let core := String.intercalate "/" segs
    if core = "" then (if isAbs then "/" else if trailing then "./" else ".")
    else (if isAbs then "/" else "") ++ core ++ (if trailing then "/" else "")

/-- Node `path.posix.join` of two segments (empty arguments are skipped, the
rest is concatenated with `/` and normalized). -/
def posixJoin (a b : String) : String :=
  if a = "" && b = "" then "."
  else if b = "" then posixNormalize a
  else if a = "" then posixNormalize b
  else posixNormalize (a ++ "/" ++ b)

/-- Node `path.posix.resolve` of a single path against an absolute working
directory. -/
def posixResolve (cwd p : String) : String :=
  let s := if p.data.head? = some '/' then p else cwd ++ "/" ++ p
  let segs := normalizeSegs false (splitSlash s)
  "/" ++ String.intercalate "/" segs

/-- `UP_PATH_REGEXP = /(?:^|[\\/])\.\.(?:[\\/]|$)/` of the source: some
maximal run between `/` or `\` separators (or the string ends) equals `..`. -/
def upPathTest (s : String) : Bool :=
  (splitListP (fun c => c = '/' || c = '\\') s.data).contains ['.', '.']

/-- `containsDotFile` of the source: some part is longer than one character
and starts with a dot. -/
def containsDotFile (parts : List String) : Bool :=
  parts.any (fun part => part.length > 1 && part.data.head? = some '.')

/-- `collapseLeadingSlashes` of the source. -/
def collapseLeadingSlashes (str : String) : String :=
  let i := (str.data.takeWhile (fun c => c = '/')).length
  if i > 1 then String.mk ('/' :: str.data.drop i) else str

example : posixNormalize ".//a/../b" = "b" := by decide
example : posixNormalize "./.config/app.txt" = ".config/app.txt" := by decide
example : posixNormalize "./../a" = "../a" := by decide
example : posixNormalize "./a/" = "a/" := by decide
example : posixNormalize "./" = "./" := by decide
example : posixJoin "/srv" "b" = "/srv/b" := by decide
example : posixResolve "/cwd" "a/../b" = "/cwd/b" := by decide
example : upPathTest "../a" = true := by decide
example : upPathTest "a\\..\\b" = true := by decide
example : upPathTest "a..b" = false := by decide
example : collapseLeadingSlashes "///a/" = "/a/" := by decide

/-! ## The `SendStream` pipeline state

The response object: Node stores headers case-insensitively and reports
their names lowercased, so headers are kept as an insertion-ordered
association list keyed by the lowercased name. -/

structure ResState where
  statusCode : Nat
  headers : List (String × String)
deriving DecidableEq, Repr

/-- `res.setHeader(k, v)`: replace in place or append. -/
def setHeaderRes (res : ResState) (k v : String) : ResState :=
  let key := lowerStr k
  if (res.headers.find? (fun kv => kv.1 = key)).isSome then
    { res with headers := res.headers.map (fun kv => if kv.1 = key then (key, v) else kv) }
  else
    { res with headers := res.headers ++ [(key, v)] }

/-- `res.getHeader(k)`. -/
def getHeaderRes (res : ResState) (k : String) : Option String :=
  (res.headers.find? (fun kv => kv.1 = lowerStr k)).map (·.2)

/-- JavaScript truthiness of a possibly-missing string (the empty string is
falsy). -/
def truthy (o : Option String) : Option String :=
  match o with
  | some v => if v = "" then none else some v
  | none => none

/-- The request view: method and the conditional / range headers the
Responder reads (Node exposes them lowercased; absent headers are `none`). -/
structure ReqHeaders where
  range : Option String
  ifMatch : Option String
  ifUnmodifiedSince : Option String
  ifNoneMatch : Option String
  ifModifiedSince : Option String
  ifRange : Option String
deriving DecidableEq, Repr

structure Req where
  method : String
  headers : ReqHeaders
deriving DecidableEq, Repr

/-- The slice of `fs.Stats` the Responder consumes: the size, and the values
produced from it by the external collaborators `stat.mtime.toUTCString()`
and `etag(stat)` (pure functions per the spec, carried as data). -/
structure StatInfo where
  size : Int
  mtimeUTC : String
  etagValue : String
deriving DecidableEq, Repr

/-- External oracles: `Date.parse` (returning `none` for `NaN`), the result
of the external `fresh(req.headers, {etag, last-modified})` collaborator for
this request, and `mime.getType`. -/
structure Env where
  dateParse : String → Option Int
  freshResult : Bool
  mimeType : String → Option String

/-- `parseTokenList` of the source: gather comma-separated tokens, skipping
spaces before a token but keeping interior spaces, via the same
`start`/`end` index bookkeeping. -/
def parseTokenList (str : String) : List String :=
  let cs := str.data
  let step := fun (st : Nat × Nat × List String) (ic : Nat × Char) =>
    let start := st.1
    let e := st.2.1
    let list := st.2.2
    let i := ic.1
    let c := ic.2
    if c = ' ' then (if start = e then (i + 1, i + 1, list) else (start, e, list))
    else if c = ',' then (i + 1, i + 1, list ++ [substr cs start e])
    else (start, i + 1, list)
  let fin := cs.enum.foldl step (0, 0, [])
  fin.2.2 ++ [substr cs fin.1 fin.2.1]

example : parseTokenList "a b , c" = ["a b", "c"] := by decide
example : parseTokenList "\"x\"" = ["\"x\""] := by decide

/-- `parseHttpDate` of the source: a falsy input (absent header or empty
string) gives `NaN`; otherwise the external `Date.parse`. -/
def parseHttpDate (env : Env) (date : Option String) : Option Int :=
  match truthy date with
  | none => none
  | some s => env.dateParse s

/-- `SendStream.isConditionalGET`. -/
def isConditionalGET (req : Req) : Bool :=
  (truthy req.headers.ifMatch).isSome || (truthy req.headers.ifUnmodifiedSince).isSome ||
    (truthy req.headers.ifNoneMatch).isSome || (truthy req.headers.ifModifiedSince).isSome

/-- `SendStream.isPreconditionFailure`.  With a truthy `If-Match`: fail when
the response has no (truthy) `ETag`, and otherwise when the header is not
`*` and every token fails all three comparisons of the source.  Without
`If-Match`: an `If-Unmodified-Since` parsing to a valid date fails when
`Last-Modified` is missing/invalid or strictly newer. -/
def isPreconditionFailure (req : Req) (res : ResState) (env : Env) : Bool :=
  match truthy req.headers.ifMatch with
  | some m =>
    match truthy (getHeaderRes res "ETag") with
    | none => true
    | some etagV =>
      m != "*" &&
        (parseTokenList m).all (fun tok =>
          tok != etagV && tok != ("W/" ++ etagV) && ("W/" ++ tok) != etagV)
  | none =>
    match parseHttpDate env req.headers.ifUnmodifiedSince with
    | none => false
    | some unmodifiedSince =>
      match parseHttpDate env (getHeaderRes res "Last-Modified") with
      | none => true
      | some lastModified => decide (lastModified > unmodifiedSince)

/-- `SendStream.removeContentHeaderFields`: drop every header whose
(lowercased, as Node reports names) name starts with `content-`, except
`content-location`. -/
def removeContentHeaderFields (res : ResState) : ResState :=
  { res with
    headers := res.headers.filter (fun kv =>
      !(isPrefixList "content-".data (lowerStr kv.1).data &&
        lowerStr kv.1 != "content-location")) }

/-- `SendStream.notModified`: strip the `Content-*` headers and answer 304
(the body is empty: `res.end()` without data). -/
def notModifiedRes (res : ResState) : ResState :=
  { removeContentHeaderFields res with statusCode := 304 }

/-- `SendStream.isCachable`: 2xx or 304. -/
def isCachable (res : ResState) : Bool :=
  (decide (200 ≤ res.statusCode) && decide (res.statusCode < 300)) ||
    decide (res.statusCode = 304)

/-- `SendStream.isFresh`: the external `fresh` collaborator. -/
def isFresh (env : Env) : Bool :=
  env.freshResult

/-- `SendStream.isRangeFresh`: no `If-Range` is fresh; a value containing a
double quote is compared as an ETag by substring search against
`String(res.getHeader("ETag"))` (which is the literal text `undefined` when
the header is absent, a quirk of the source); otherwise both sides are
parsed as dates and `NaN` comparisons are false. -/
def isRangeFresh (req : Req) (res : ResState) (env : Env) : Bool :=
  match truthy req.headers.ifRange with
  | none => true
  | some ifRange =>
    if ifRange.data.contains '"' then
      let etagS := (getHeaderRes res "ETag").getD "undefined"
      etagS != "" && containsSub ifRange.data etagS.data
    else
      match parseHttpDate env (getHeaderRes res "Last-Modified"),
          parseHttpDate env (some ifRange) with
      | some lastModified, some ir => decide (lastModified ≤ ir)
      | _, _ => false

/-! ## SendStream construction (`constructor`) -/

/-- The validated per-instance state of a `SendStream` (the `_`-prefixed
fields of the class). -/
structure SendStreamState where
  acceptRanges : Bool
  cacheControl : Bool
  etagEnabled : Bool
  /-- `none` models the legacy `undefined` kept when the option is omitted. -/
  dotfiles : Option String
  extensions : List String
  index : List String
  lastModified : Bool
  maxage : Nat
  root : Option String
  startOpt : Option Int
  endOpt : Option Int

/-- The raw `ISendOptions` argument.  `dotfiles` is an arbitrary string when
defined, since the runtime check guards exactly that.  `maxAge` is carried
as its numeric value (the `ms` string form of the option is converted to a
number before the clamping modelled here and is used by no claim). -/
structure ISendOptions where
  acceptRanges : Option Bool := none
  cacheControl : Option Bool := none
  dotfiles : Option String := none
  endOpt : Option Int := none
  etagOpt : Option Bool := none
  extensions : Option (List String) := none
  index : Option (List String) := none
  lastModified : Option Bool := none
  maxAge : Option Int := none
  root : Option String := none
  startOpt : Option Int := none

/-- `MAX_MAXAGE`: one year in milliseconds. -/
def MAX_MAXAGE : Int := 60 * 60 * 24 * 365 * 1000

/-- The `SendStream` constructor: defaulting of every option, the synchronous
`TypeError` on an invalid `dotfiles` value (thrown before any request
processing), the legacy reset of `_dotfiles` to `undefined` when the option
was omitted, the `maxAge` clamp, and root resolution. -/
def constructSendStream (cwd : String) (options : ISendOptions) :
    Except String SendStreamState :=
  let dotfiles0 := options.dotfiles.getD "ignore"
  if dotfiles0 != "ignore" && dotfiles0 != "allow" && dotfiles0 != "deny" then
    .error "dotfiles option must be \x22allow\x22, \x22deny\x22, or \x22ignore\x22"
  else
    .ok {
      acceptRanges := options.acceptRanges.getD true
      cacheControl := options.cacheControl.getD true
      etagEnabled := options.etagOpt.getD true
      dotfiles := options.dotfiles
      extensions := options.extensions.getD []
      index := options.index.getD ["index.html"]
      lastModified := options.lastModified.getD true
      maxage := (min (max 0 (options.maxAge.getD 0)) MAX_MAXAGE).toNat
      root := options.root.map (posixResolve cwd)
      startOpt := options.startOpt
      endOpt := options.endOpt }

/-! ## `SendStream.send`: headers, conditional GET, ranges -/

/-- `SendStream.setHeader`: emit `Accept-Ranges`, `Cache-Control`,
`Last-Modified` and `ETag`, each only when enabled and not already (truthily)
present. -/
def setHeaderFields (st : SendStreamState) (stat : StatInfo) (res : ResState) : ResState :=
  let res := if st.acceptRanges && (truthy (getHeaderRes res "Accept-Ranges")).isNone
    then setHeaderRes res "Accept-Ranges" "bytes" else res
  let res := if st.cacheControl && (truthy (getHeaderRes res "Cache-Control")).isNone
    then setHeaderRes res "Cache-Control" ("public, max-age=" ++ toString (st.maxage / 1000))
    else res
  let res := if st.lastModified && (truthy (getHeaderRes res "Last-Modified")).isNone
    then setHeaderRes res "Last-Modified" stat.mtimeUTC else res
  let res := if st.etagEnabled && (truthy (getHeaderRes res "ETag")).isNone
    then setHeaderRes res "ETag" stat.etagValue else res
  res

/-- `SendStream.type`: set `Content-Type` from `mime.getType(path)` when not
already set and the lookup is truthy. -/
def typeField (env : Env) (path : String) (res : ResState) : ResState :=
  if (truthy (getHeaderRes res "Content-Type")).isSome then res
  else
    match env.mimeType path with
    | none => res
    | some t => if t = "" then res else setHeaderRes res "Content-Type" t

/-- `contentRange` of the source. -/
def contentRange (type : String) (size : Int) (range : Option IRangeItem) : String :=
  type ++ " " ++
    (match range with
     | some r => toString r.start ++ "-" ++ toString r.stop
     | none => "*") ++ "/" ++ toString size

/-- `BYTES_RANGE_REGEXP = /^ *bytes=/` applied to the `Range` header (an
absent header never matches). -/
def bytesRangeTest (o : Option String) : Bool :=
  match o with
  | none => false
  | some s => isPrefixList "bytes=".data (s.data.dropWhile (fun c => c = ' '))

/-- What `send` does after composing headers: an error (`this.error(status,
err)`, recording the headers attached to the error), a 304, a header-only
HEAD reply, or streaming the byte window `[readStart, readEnd]`. -/
inductive SendAction where
  | errAction (status : Nat) (errHeaders : List (String × String))
  | notModifiedAction (res : ResState)
  | headResponse (res : ResState)
  | streamResponse (res : ResState) (readStart readEnd : Int)
deriving DecidableEq, Repr

/-- The tail of `send`: set the read window `opts.start = offset`,
`opts.end = max(offset, offset + len - 1)`, set `Content-Length: len`, and
end for HEAD or stream the window. -/
def finishSend (req : Req) (res : ResState) (offset len : Int) : SendAction :=
  let readEnd := max offset (offset + len - 1)
  let res := setHeaderRes res "Content-Length" (toString len)
  if req.method = "HEAD" then .headResponse res
  else .streamResponse res offset readEnd

/-- The effective length after the `start`/`end` option window
(`len = max(0, size - offset)`, then capped by `end - offset + 1`). -/
def effectiveLen (st : SendStreamState) (size offset : Int) : Int :=
  let len := max 0 (size - offset)
  match st.endOpt with
  | some e => if len > e - offset + 1 then e - offset + 1 else len
  | none => len

/-- `SendStream.send(path, stat)`.  Headers already sent is a 500; base
headers and `Content-Type` are composed; a conditional GET may end in 412 or
304; the `Range` header is honored when `acceptRanges` is on and it matches
`/^ *bytes=/`, a stale `If-Range` turning the parse result into `-2`; `-1`
answers 416 with a `Content-Range: bytes */len` error header (the error also
sets that header on the response before raising); exactly one range gives
206 with `Content-Range` and a narrowed window; `-2` and multiple ranges
fall through to a full reply. -/
def sendModel (st : SendStreamState) (req : Req) (env : Env) (path : String)
    (stat : StatInfo) (headersSent : Bool) (res : ResState) : SendAction :=
  let offset := st.startOpt.getD 0
  if headersSent then .errAction 500 []
  else
    let res := setHeaderFields st stat res
    let res := typeField env path res
    if isConditionalGET req && isPreconditionFailure req res env then
      .errAction 412 []
    else if isConditionalGET req && (isCachable res && isFresh env) then
      .notModifiedAction (notModifiedRes res)
    else
      let len := effectiveLen st stat.size offset
      if st.acceptRanges && bytesRangeTest req.headers.range then
        let pr := rangeParser len (req.headers.range.getD "") true
        let pr := if !isRangeFresh req res env then .malformed else pr
        match pr with
        | .unsatisfiable =>
          .errAction 416 [("Content-Range", contentRange "bytes" len none)]
        | .ranges l =>
          match l with
          | [r] =>
            let res := { res with statusCode := 206 }
            let res := setHeaderRes res "Content-Range" (contentRange "bytes" len (some r))
            finishSend req res (offset + r.start) (r.stop - r.start + 1)
          | _ => finishSend req res offset len
        | .malformed => finishSend req res offset len
      else finishSend req res offset len

/-! ## Filesystem probes: `sendFile`, `sendIndex` -/

/-- The error codes distinguished by `onStatError`. -/
inductive FsErrCode where
  | enoent
  | enotdir
  | enametoolong
  | other
deriving DecidableEq, Repr

/-- Outcome of one `fs.stat` call. -/
inductive StatResult where
  | found (stat : StatInfo) (isDir : Bool)
  | fsError (code : FsErrCode)
deriving DecidableEq, Repr

/-- `SendStream.onStatError`: `ENAMETOOLONG`/`ENOENT`/`ENOTDIR` are 404,
anything else 500. -/
def onStatErrorCode : FsErrCode → Nat
  | .enoent => 404
  | .enotdir => 404
  | .enametoolong => 404
  | .other => 500

/-- Whether Node `path.extname(path)` is the empty string (the only falsy
value it can produce), for paths not ending in `/` (the caller of this test
checks the trailing separator separately): the final `/`-segment has no dot,
or its last dot is its first character, or it is exactly `..`. -/
def extnameEmpty (path : String) : Bool :=
  let b := (splitListC '/' path.data).getLastD []
  if !b.contains '.' then true
  else
    let idx := b.length - 1 - (b.reverse.takeWhile (fun c => c ≠ '.')).length
    idx = 0 || b = ['.', '.']

example : extnameEmpty "/srv/a.txt" = false := by decide
example : extnameEmpty "/srv/missing" = true := by decide
example : extnameEmpty "/srv/.hidden" = true := by decide
example : extnameEmpty "/srv/a.b.c" = false := by decide

/-- What a probe decides: serve a file, hand a directory to `redirect`, or
raise an error status. -/
inductive ServeOutcome where
  | serve (path : String) (stat : StatInfo)
  | redirectDir (path : String)
  | errOut (status : Nat)
deriving DecidableEq, Repr

/-- The `next` closure of `sendFile`: try `path + "." + ext` for each
extension; a further stat error replaces the carried error, a directory hit
clears it; when exhausted, `onStatError` on the carried error or 404. -/
def sendFileExtLoop (fs : String → StatResult) (path : String) :
    List String → Option FsErrCode → ServeOutcome
  | [], none => .errOut 404
  | [], some e => .errOut (onStatErrorCode e)
  | ext :: rest, _ =>
    match fs (path ++ "." ++ ext) with
    | .found stat isDir =>
      if isDir then sendFileExtLoop fs path rest none
      else .serve (path ++ "." ++ ext) stat
    | .fsError c => sendFileExtLoop fs path rest (some c)

/-- `SendStream.sendFile`: stat the path; `ENOENT` on an extension-less,
non-`/`-terminated path enters the extension fallback; other errors map via
`onStatError`; a directory goes to `redirect`; otherwise serve. -/
def sendFileModel (fs : String → StatResult) (extensions : List String)
    (path : String) : ServeOutcome :=
  match fs path with
  | .fsError c =>
    if c = .enoent && extnameEmpty path && path.data.getLast? != some '/' then
      sendFileExtLoop fs path extensions (some .enoent)
    else .errOut (onStatErrorCode c)
  | .found stat isDir => if isDir then .redirectDir path else .serve path stat

/-- The `next` closure of `sendIndex`: try `join(path, name)` for each index
name; directories continue with the carried error cleared; when exhausted,
`onStatError` on the carried error or 404. -/
def sendIndexLoop (fs : String → StatResult) (path : String) :
    List String → Option FsErrCode → ServeOutcome
  | [], none => .errOut 404
  | [], some e => .errOut (onStatErrorCode e)
  | name :: rest, _ =>
    let p := posixJoin path name
    match fs p with
    | .found stat isDir =>
      if isDir then sendIndexLoop fs path rest none else .serve p stat
    | .fsError c => sendIndexLoop fs path rest (some c)

/-- `SendStream.sendIndex`. -/
def sendIndexModel (fs : String → StatResult) (index : List String)
    (path : String) : ServeOutcome :=
  sendIndexLoop fs path index none

/-! ## Error, redirect and final responses -/

/-- Modelled from the spec: Node `STATUS_CODES` texts, restricted to the
status codes that reach `error()` in this program (the source helper
`getStatusCodeMessage` throws on codes outside the table, which does not
arise at these call sites). -/
def getStatusCodeMessage : Nat → String
  | 400 => "Bad Request"
  | 403 => "Forbidden"
  | 404 => "Not Found"
  | 412 => "Precondition Failed"
  | 416 => "Range Not Satisfiable"
  | 500 => "Internal Server Error"
  | _ => "Unknown"

/-- Modelled from the spec: the external `escape-html` collaborator (trivial
HTML body escaping of the five special characters). -/
def escapeHtml (s : String) : String :=
  String.mk (s.data.flatMap (fun c =>
    if c = '&' then "&amp;".data
    else if c = '"' then "&quot;".data
    else if c = '\x27' then "&#39;".data
    else if c = '<' then "&lt;".data
    else if c = '>' then "&gt;".data
    else [c]))

/-- UTF-8 bytes of one character. -/
def charUtf8Bytes (c : Char) : List Nat :=
  let n := c.toNat
  if n < 0x80 then [n]
  else if n < 0x800 then [0xC0 + n / 64, 0x80 + n % 64]
  else if n < 0x10000 then [0xE0 + n / 4096, 0x80 + (n / 64) % 64, 0x80 + n % 64]
  else [0xF0 + n / 262144, 0x80 + (n / 4096) % 64, 0x80 + (n / 64) % 64, 0x80 + n % 64]

def hexDigitChar (n : Nat) : Char := "0123456789ABCDEF".data.getD n '0'

def percentByte (b : Nat) : List Char := ['%', hexDigitChar (b / 16), hexDigitChar (b % 16)]

def isHexChar (c : Char) : Bool :=
  c.isDigit || ('A' ≤ c && c ≤ 'F') || ('a' ≤ c && c ≤ 'f')

/-- Characters the encoder leaves as they are (RFC 3986 URI characters minus
`%`, which is handled via triplet detection). -/
def urlAllowedChar (c : Char) : Bool :=
  c.isAlphanum || "!#$&\x27()*+,-./:;=?@[]_~".data.contains c

/-- Modelled from the spec: the external `encodeurl` collaborator — an
idempotent percent-encoding that leaves already-encoded triplets intact. -/
def encodeUrlChars : List Char → List Char
  | [] => []
  | '%' :: a :: b :: rest =>
    if isHexChar a && isHexChar b then '%' :: a :: b :: encodeUrlChars rest
    else percentByte 0x25 ++ encodeUrlChars (a :: b :: rest)
  | c :: rest =>
    if urlAllowedChar c then c :: encodeUrlChars rest
    else (charUtf8Bytes c).flatMap percentByte ++ encodeUrlChars rest

/-- Modelled from the spec: the external `encodeurl` collaborator. -/
def encodeUrl (s : String) : String := String.mk (encodeUrlChars s.data)

/-- `createHtmlDocument` of the source. -/
def createHtmlDocument (title body : String) : String :=
  "<!DOCTYPE html>\n<html lang=\x22en\x22>\n<head>\n<meta charset=\x22utf-8\x22>\n<title>" ++
    title ++ "</title>\n</head>\n<body>\n<pre>" ++ body ++ "</pre>\n</body>\n</html>\n"

/-- The body of a finished response: empty (304, HEAD), an HTML document
(error and redirect pages), or the byte window of the served file. -/
inductive BodyKind where
  | empty
  | htmlDoc (doc : String)
  | fileBytes (start stop : Int)
deriving DecidableEq, Repr

/-- A finished response as written by the Responder. -/
structure FinalResponse where
  status : Nat
  headers : List (String × String)
  body : BodyKind
deriving DecidableEq, Repr

/-- `SendStream.error` with no `error` listener attached: clear all response
headers, apply the headers carried by the error, set the status and the four
fixed headers, and send the HTML error document as body. -/
def errorFinal (status : Nat) (errHeaders : List (String × String)) : FinalResponse :=
  let doc := createHtmlDocument "Error" (escapeHtml (getStatusCodeMessage status))
  let res : ResState := ⟨status, []⟩
  let res := errHeaders.foldl (fun r kv => setHeaderRes r kv.1 kv.2) res
  let res := setHeaderRes res "Content-Type" "text/html; charset=UTF-8"
  let res := setHeaderRes res "Content-Length" (toString doc.utf8ByteSize)
  let res := setHeaderRes res "Content-Security-Policy" "default-src \x27self\x27"
  let res := setHeaderRes res "X-Content-Type-Options" "nosniff"
  { status := status, headers := res.headers, body := .htmlDoc doc }

/-- `SendStream.redirect` with no `directory` listener: 403 when the request
path already ends in `/`, otherwise the 301 page with `Location`. -/
def redirectFinal (rawPath : String) (res : ResState) : FinalResponse :=
  if rawPath.data.getLast? = some '/' then errorFinal 403 []
  else
    let loc := encodeUrl (collapseLeadingSlashes (rawPath ++ "/"))
    let doc := createHtmlDocument "Redirecting"
      ("Redirecting to <a href=\x22" ++ escapeHtml loc ++ "\x22>" ++ escapeHtml loc ++ "</a>")
    let res := setHeaderRes res "Content-Type" "text/html; charset=UTF-8"
    let res := setHeaderRes res "Content-Length" (toString doc.utf8ByteSize)
    let res := setHeaderRes res "Content-Security-Policy" "default-src \x27self\x27"
    let res := setHeaderRes res "X-Content-Type-Options" "nosniff"
    let res := setHeaderRes res "Location" loc
    { status := 301, headers := res.headers, body := .htmlDoc doc }

/-! ## `SendStream.pipe` -/

/-- Outcome of the path-validation phase of `pipe`: an immediate error, or a
probe (index or file) at the resolved path — reaching a probe is exactly
reaching a filesystem `stat`. -/
inductive PipeOutcome where
  | pipeErr (status : Nat)
  | probeIndex (path : String)
  | probeFile (path : String)
deriving DecidableEq, Repr

/-- Trailing-slash dispatch of `pipe`: index probe when `_index` is
non-empty and `this.path` (the raw request path) ends in `/`. -/
def pipeDispatch (st : SendStreamState) (rawPath : String) (path : String) : PipeOutcome :=
  if st.index.length != 0 && rawPath.data.getLast? == some '/' then .probeIndex path
  else .probeFile path

/-- Dotfile handling of `pipe`: note that the `undefined` legacy value
(`dotfiles` option omitted) falls into the same `default:` switch case as
the explicit `"ignore"`. -/
def pipeDotfiles (st : SendStreamState) (rawPath : String) (parts : List String)
    (path : String) : PipeOutcome :=
  if containsDotFile parts then
    match st.dotfiles with
    | some "allow" => pipeDispatch st rawPath path
    | some "deny" => .pipeErr 403
    | _ => .pipeErr 404
  else pipeDispatch st rawPath path

/-- The path-validation phase of `SendStream.pipe`: decode failure and NUL
bytes are 400; with a root the decoded path is first normalized as
`./<path>` and then checked against `UP_PATH_REGEXP` (403) before being
joined under the root; without a root the decoded path is checked directly,
then resolved; the exploded parts feed the dotfile policy. -/
def pipeModel (st : SendStreamState) (cwd rawPath : String)
    (decoded : Option String) : PipeOutcome :=
  match decoded with
  | none => .pipeErr 400
  | some dpath =>
    if dpath.data.contains '\x00' then .pipeErr 400
    else
      match st.root with
      | some root =>
        let path := if dpath ≠ "" then posixNormalize ("." ++ "/" ++ dpath) else dpath
        if upPathTest path then .pipeErr 403
        else
          let parts := splitSlash path
          let path := posixNormalize (posixJoin root path)
          pipeDotfiles st rawPath parts path
      | none =>
        if upPathTest dpath then .pipeErr 403
        else
          let parts := splitSlash (posixNormalize dpath)
          let path := posixResolve cwd dpath
          pipeDotfiles st rawPath parts path

/-- Assemble the final response from a `send` action. -/
def actionToFinal : SendAction → FinalResponse
  | .errAction s hs => errorFinal s hs
  | .notModifiedAction res => ⟨res.statusCode, res.headers, .empty⟩
  | .headResponse res => ⟨res.statusCode, res.headers, .empty⟩
  | .streamResponse res a b => ⟨res.statusCode, res.headers, .fileBytes a b⟩

/-- Assemble the final response from a probe outcome. -/
def serveToFinal (st : SendStreamState) (req : Req) (env : Env)
    (headersSent : Bool) (res0 : ResState) (rawPath : String) :
    ServeOutcome → FinalResponse
  | .errOut s => errorFinal s []
  | .redirectDir _ => redirectFinal rawPath res0
  | .serve p stat => actionToFinal (sendModel st req env p stat headersSent res0)

/-- The complete Responder on one request, with no listeners attached: the
response it writes for the given request, options and filesystem. -/
def respond (st : SendStreamState) (req : Req) (env : Env)
    (fs : String → StatResult) (cwd rawPath : String) (decoded : Option String)
    (headersSent : Bool) (res0 : ResState) : FinalResponse :=
  match pipeModel st cwd rawPath decoded with
  | .pipeErr s => errorFinal s []
  | .probeIndex path =>
    serveToFinal st req env headersSent res0 rawPath (sendIndexModel fs st.index path)
  | .probeFile path =>
    serveToFinal st req env headersSent res0 rawPath (sendFileModel fs st.extensions path)

/-! ## Concrete fixtures (used by witnesses and counterexamples) -/

/-- Default-constructed state with root `/srv` (all options at their
defaults, `dotfiles` omitted). -/
def stSrv : SendStreamState :=
  ⟨true, true, true, none, [], ["index.html"], true, 0, some "/srv", none, none⟩

/-- A GET request carrying only the given headers. -/
def reqGet (hs : ReqHeaders) : Req := ⟨"GET", hs⟩

/-- No request headers. -/
def noHeaders : ReqHeaders := ⟨none, none, none, none, none, none⟩

/-- An environment with no parsable dates, a stale freshness answer and no
MIME knowledge. -/
def envNone : Env := ⟨fun _ => none, false, fun _ => none⟩

/-- A filesystem with a single 3-byte file `/srv/a.txt`. -/
def fsA : String → StatResult := fun p =>
  if p = "/srv/a.txt" then
    .found ⟨3, "Thu, 01 Jan 1970 00:00:00 GMT", "\x22etagA\x22"⟩ false
  else .fsError .enoent

example : pipeModel stSrv "/cwd" "/a/../b" (some "/a/../b") = .probeFile "/srv/b" := by
  decide
example : pipeModel { stSrv with root := none } "/cwd" "/a/../b" (some "/a/../b") =
    .pipeErr 403 := by decide
example : pipeModel stSrv "/cwd" "/.config/app.txt" (some "/.config/app.txt") =
    .pipeErr 404 := by decide
example : pipeModel { stSrv with dotfiles := some "allow" } "/cwd" "/.config/app.txt"
    (some "/.config/app.txt") = .probeFile "/srv/.config/app.txt" := by decide
example :
    (respond stSrv (reqGet { noHeaders with range := some "bytes=-5" }) envNone fsA
      "/cwd" "/a.txt" (some "/a.txt") false ⟨200, []⟩).status = 416 := by decide
example :
    getHeaderRes ⟨416, (respond stSrv (reqGet { noHeaders with range := some "bytes=-5" })
      envNone fsA "/cwd" "/a.txt" (some "/a.txt") false ⟨200, []⟩).headers⟩
      "Content-Range" = some "bytes */3" := by decide
example :
    (respond stSrv (reqGet noHeaders) envNone fsA "/cwd" "/a.txt" (some "/a.txt")
      false ⟨200, []⟩) =
    ⟨200, [("accept-ranges", "bytes"), ("cache-control", "public, max-age=0"),
      ("last-modified", "Thu, 01 Jan 1970 00:00:00 GMT"), ("etag", "\x22etagA\x22"),
      ("content-length", "3")], .fileBytes 0 2⟩ := by decide
example :
    (respond stSrv (reqGet { noHeaders with ifNoneMatch := some "*" })
      { envNone with freshResult := true } fsA "/cwd" "/a.txt" (some "/a.txt")
      false ⟨200, []⟩) =
    ⟨304, [("accept-ranges", "bytes"), ("cache-control", "public, max-age=0"),
      ("last-modified", "Thu, 01 Jan 1970 00:00:00 GMT"), ("etag", "\x22etagA\x22")],
      .empty⟩ := by decide
example :
    (respond stSrv (reqGet { noHeaders with range := some "bytes=1-2" }) envNone fsA
      "/cwd" "/a.txt" (some "/a.txt") false ⟨200, []⟩) =
    ⟨206, [("accept-ranges", "bytes"), ("cache-control", "public, max-age=0"),
      ("last-modified", "Thu, 01 Jan 1970 00:00:00 GMT"), ("etag", "\x22etagA\x22"),
      ("content-range", "bytes 1-2/3"), ("content-length", "2")], .fileBytes 1 2⟩ := by
  decide

/-! ## Header-state lemmas -/

theorem find?_replace_self (l : List (String × String)) (key v : String)
    (hf : (l.find? (fun kv => kv.1 = key)).isSome) :
    (l.map (fun kv => if kv.1 = key then (key, v) else kv)).find?
      (fun kv => kv.1 = key) = some (key, v) := by
  induction l with
  | nil => simp at hf
  | cons a t ih =>
    by_cases h : a.1 = key
    · simp [h]
    · have ht : (t.find? (fun kv => kv.1 = key)).isSome := by
        simpa [List.find?_cons_of_neg, h] using hf
      simp [h, ih ht]

theorem find?_replace_of_ne (l : List (String × String)) (key key' v : String)
    (hne : key' ≠ key) :
    (l.map (fun kv => if kv.1 = key then (key, v) else kv)).find?
      (fun kv => kv.1 = key') = l.find? (fun kv => kv.1 = key') := by
  induction l with
  | nil => simp
  | cons a t ih =>
    by_cases h : a.1 = key
    · have h2 : ¬((key, v).1 = key') := fun hh => hne hh.symm
      have h3 : ¬(a.1 = key') := by rw [h]; exact fun hh => hne hh.symm
      have hmap : (if a.1 = key then (key, v) else a) = (key, v) := if_pos h
      rw [List.map_cons, hmap, List.find?_cons_of_neg _ (by simpa using h2),
        List.find?_cons_of_neg _ (by simpa using h3), ih]
    · have hmap : (if a.1 = key then (key, v) else a) = a := if_neg h
      rw [List.map_cons, hmap]
      by_cases h3 : a.1 = key'
      · rw [List.find?_cons_of_pos _ (by simpa using h3),
          List.find?_cons_of_pos _ (by simpa using h3)]
      · rw [List.find?_cons_of_neg _ (by simpa using h3),
          List.find?_cons_of_neg _ (by simpa using h3), ih]

theorem getHeaderRes_setHeaderRes_self (res : ResState) (k v : String) :
    getHeaderRes (setHeaderRes res k v) k = some v := by
  rcases res with ⟨s, l⟩
  simp only [setHeaderRes, getHeaderRes]
  by_cases hf : (l.find? (fun kv => kv.1 = lowerStr k)).isSome
  · rw [if_pos hf]
    rw [find?_replace_self l (lowerStr k) v hf]
    rfl
  · rw [if_neg hf]
    simp only [List.find?_append]
    rw [Option.not_isSome_iff_eq_none] at hf
    rw [hf]
    simp [List.find?]

theorem getHeaderRes_setHeaderRes_ne (res : ResState) (k k' v : String)
    (hne : lowerStr k' ≠ lowerStr k) :
    getHeaderRes (setHeaderRes res k v) k' = getHeaderRes res k' := by
  rcases res with ⟨s, l⟩
  simp only [setHeaderRes, getHeaderRes]
  by_cases hf : (l.find? (fun kv => kv.1 = lowerStr k)).isSome
  · rw [if_pos hf]
    rw [find?_replace_of_ne l (lowerStr k) (lowerStr k') v hne]
  · rw [if_neg hf]
    simp only [List.find?_append]
    have hkk : ¬((lowerStr k, v).1 = lowerStr k') := fun hh => hne hh.symm
    have hnone : ([(lowerStr k, v)].find? (fun kv => kv.1 = lowerStr k')) = none := by
      rw [List.find?_cons_of_neg _ (by simpa using hkk)]
      rfl
    rw [hnone]
    cases l.find? (fun kv => kv.1 = lowerStr k') <;> rfl

theorem statusCode_setHeaderRes (res : ResState) (k v : String) :
    (setHeaderRes res k v).statusCode = res.statusCode := by
  simp only [setHeaderRes]
  split <;> rfl

/-! ## Claim theorems -/

/-- C2: with the `dotfiles` option omitted (the legacy `undefined` value),
a request whose path has a dot-prefixed directory component but a non-dotfile
final segment is answered 404 exactly as with explicit `ignore` — the
`default:` switch case shared with `"ignore"` swallows the legacy value, so
the backward-compatibility behavior promised by the option documentation is
not implemented. -/
theorem c2_legacy_dotfiles_ignores_dot_directories :
    stSrv.dotfiles = none ∧
    pipeModel stSrv "/cwd" "/.config/app.txt" (some "/.config/app.txt") = .pipeErr 404 ∧
    pipeModel { stSrv with dotfiles := some "ignore" } "/cwd" "/.config/app.txt"
      (some "/.config/app.txt") = .pipeErr 404 ∧
    (respond stSrv (reqGet noHeaders) envNone fsA "/cwd" "/.config/app.txt"
      (some "/.config/app.txt") false ⟨200, []⟩).status = 404 := by
  exact ⟨rfl, by decide, by decide, by decide⟩

/-- C9: constructing a `SendStream` returns the `TypeError` exactly when the
`dotfiles` option is defined and not one of `allow`, `deny`, `ignore`;
construction is a pure function of the options, so the error is synchronous
and precedes any request processing or filesystem access. -/
theorem c9_dotfiles_validation (cwd : String) (o : ISendOptions) :
    (∃ e, constructSendStream cwd o = .error e) ↔
      ∃ d, o.dotfiles = some d ∧ d ≠ "allow" ∧ d ≠ "deny" ∧ d ≠ "ignore" := by
  unfold constructSendStream
  rcases hd : o.dotfiles with _ | d
  · simp [Option.getD]
  · simp only [Option.getD_some]
    by_cases h1 : d = "ignore"
    · simp [h1]
    · by_cases h2 : d = "allow"
      · simp [h2]
      · by_cases h3 : d = "deny"
        · simp [h3]
        · simp [h1, h2, h3]

/-- C10 helper: a `streamResponse` produced by `finishSend` has the window
`[offset, max(offset, offset + len - 1)]` and `Content-Length: len`. -/
theorem finishSend_streamResponse (req : Req) (res : ResState) (off L : Int)
    (res' : ResState) (a b : Int)
    (h : finishSend req res off L = .streamResponse res' a b) :
    a = off ∧ b = max off (off + L - 1) ∧
      getHeaderRes res' "Content-Length" = some (toString L) := by
  unfold finishSend at h
  split at h
  · cases h
  · injection h with h1 h2 h3
    subst h2
    subst h3
    exact ⟨rfl, rfl, by rw [← h1]; exact getHeaderRes_setHeaderRes_self res _ _⟩

theorem finishSend_window (req : Req) (res : ResState) (off L : Int)
    (res' : ResState) (a b : Int)
    (h : finishSend req res off L = .streamResponse res' a b) :
    a ≤ b ∧ ∃ len, b = max a (a + len - 1) ∧
      getHeaderRes res' "Content-Length" = some (toString len) ∧
      (len = 0 → b = a) := by
  obtain ⟨h1, h2, h3⟩ := finishSend_streamResponse req res off L res' a b h
  subst h1
  refine ⟨by rw [h2]; exact le_max_left _ _, L, h2, h3, ?_⟩
  intro h0
  rw [h0] at h2
  rw [h2]
  exact max_eq_left (by omega)

/-- C10: every file-stream window `send` hands to the reader satisfies
`start ≤ end`: the end is `max(offset, offset + len - 1)`, so a zero
effective length degenerates to the window `[offset, offset]` while the
`Content-Length` header still carries the true `len`. -/
theorem c10_stream_window_wellformed (st : SendStreamState) (req : Req) (env : Env)
    (path : String) (stat : StatInfo) (hs : Bool) (res res' : ResState) (a b : Int)
    (h : sendModel st req env path stat hs res = .streamResponse res' a b) :
    a ≤ b ∧ ∃ len, b = max a (a + len - 1) ∧
      getHeaderRes res' "Content-Length" = some (toString len) ∧
      (len = 0 → b = a) := by
  simp only [sendModel] at h
  split at h
  · cases h
  · split at h
    · cases h
    · split at h
      · cases h
      · split at h
        · split at h
          · cases h
          · split at h
            · exact finishSend_window _ _ _ _ _ _ _ h
            · exact finishSend_window _ _ _ _ _ _ _ h
          · exact finishSend_window _ _ _ _ _ _ _ h
        · exact finishSend_window _ _ _ _ _ _ _ h

/-- C10 witness: a GET for the empty window of a 3-byte file with
`start = 5` gets the degenerate window `[5, 5]` and `Content-Length: 0`. -/
theorem c10_stream_window_wellformed_witness :
    5 ≤ (5 : Int) ∧ ∃ len, (5 : Int) = max 5 (5 + len - 1) ∧
      getHeaderRes ⟨200, [("accept-ranges", "bytes"), ("cache-control", "public, max-age=0"),
        ("last-modified", "Thu, 01 Jan 1970 00:00:00 GMT"), ("etag", "\x22etagA\x22"),
        ("content-length", "0")]⟩ "Content-Length" = some (toString len) ∧
      (len = 0 → (5 : Int) = 5) := by
  have h := c10_stream_window_wellformed { stSrv with startOpt := some 5 }
    (reqGet noHeaders) envNone "/srv/a.txt"
    ⟨3, "Thu, 01 Jan 1970 00:00:00 GMT", "\x22etagA\x22"⟩ false ⟨200, []⟩
    ⟨200, [("accept-ranges", "bytes"), ("cache-control", "public, max-age=0"),
      ("last-modified", "Thu, 01 Jan 1970 00:00:00 GMT"), ("etag", "\x22etagA\x22"),
      ("content-length", "0")]⟩ 5 5 (by decide)
  exact h

/-- A `..` path component of a pathname, in the sense of the claim: one of
the `/`-separated components equals `..`. -/
def hasDotDotSegment (s : String) : Bool :=
  (splitListC '/' s.data).contains ['.', '.']

/-- A pathname with a `..` component also matches `UP_PATH_REGEXP` (which
additionally splits on backslashes). -/
theorem upPathTest_of_hasDotDotSegment {s : String}
    (h : hasDotDotSegment s = true) : upPathTest s = true := by
  unfold hasDotDotSegment splitListC at h
  unfold upPathTest
  have hmem : ['.', '.'] ∈ splitListP (fun c => c = '/') s.data := by
    simpa using h
  have hmem' : ['.', '.'] ∈ splitListP (fun c => c = '/' || c = '\\') s.data := by
    refine mem_splitListP_refine ?_ ?_ hmem
    · intro c hc
      simp only [decide_eq_true_eq] at hc
      simp [hc]
    · intro c hc
      have : c = '.' := by simpa using hc
      subst this
      decide
  simpa using hmem'

/-- C1 counterexample: with root `/srv`, the decoded pathname `/a/../b`
contains a `..` component, yet normalization collapses it before the check:
the pipe proceeds to a filesystem stat of `/srv/b` instead of answering 403.
Additionally, without a root, a pathname containing both a NUL byte and a
`..` component answers 400, not 403. -/
theorem c1_dotdot_not_rejected_under_root :
    hasDotDotSegment "/a/../b" = true ∧
    pipeModel stSrv "/cwd" "/a/../b" (some "/a/../b") = .probeFile "/srv/b" ∧
    hasDotDotSegment "/../\x00x" = true ∧
    pipeModel { stSrv with root := none } "/cwd" "/../\x00x" (some "/../\x00x") =
      .pipeErr 400 := by
  exact ⟨by decide, by decide, by decide, by decide⟩

/-- C1 amended: for NUL-free decoded pathnames, `pipe` answers 403 before
any stat (a) without a root, whenever the decoded path has a `..` component,
and (b) with a root, whenever the lexical `..` check succeeds on the
normalized relative path `./<path>` — a `..` component that normalization
collapses away is not rejected (see the counterexample). -/
theorem c1_dotdot_rejection (st : SendStreamState) (cwd rawPath dpath : String)
    (hnul : dpath.data.contains '\x00' = false) :
    (st.root = none → hasDotDotSegment dpath = true →
      pipeModel st cwd rawPath (some dpath) = .pipeErr 403) ∧
    (∀ r, st.root = some r →
      upPathTest (if dpath ≠ "" then posixNormalize ("." ++ "/" ++ dpath) else dpath) = true →
      pipeModel st cwd rawPath (some dpath) = .pipeErr 403) := by
  have hnul' : ¬('\x00' ∈ dpath.data) := by
    intro hmem
    have h2 : dpath.data.contains '\x00' = true := by
      simp only [List.contains, List.elem_eq_mem, decide_eq_true_eq]
      exact hmem
    rw [h2] at hnul
    cases hnul
  constructor
  · intro hroot hdd
    have hup := upPathTest_of_hasDotDotSegment hdd
    simp [pipeModel, hroot, hnul', hup]
  · intro r hroot hup
    simp only [pipeModel, hroot]
    rw [if_neg (by simpa using hnul')]
    rw [hup]
    simp

/-- C1 witness: both branches of the amended theorem at concrete inputs —
`/../x` is rejected with and without a root. -/
theorem c1_dotdot_rejection_witness :
    pipeModel { stSrv with root := none } "/cwd" "/../x" (some "/../x") = .pipeErr 403 ∧
    pipeModel stSrv "/cwd" "/../x" (some "/../x") = .pipeErr 403 := by
  constructor
  · exact (c1_dotdot_rejection { stSrv with root := none } "/cwd" "/../x" "/../x"
      (by decide)).1 rfl (by decide)
  · exact (c1_dotdot_rejection stSrv "/cwd" "/../x" "/../x"
      (by decide)).2 "/srv" rfl (by decide)

/-- `jsParseInt` of the empty string is `NaN`. -/
theorem jsParseInt_nil : jsParseInt (String.mk []) = none := rfl

/-- The suffix-range arithmetic of the parser loop: an entry `-t` (with `t`
free of `-`) parsing to the value `nnn` yields `start = size - nnn`,
`end = size - 1`, dropped exactly when `start > end` or `start < 0` — there
is no clamp of a negative `start` to `0`. -/
theorem parseOneRange_suffix (size nnn : Int) (t : List Char)
    (ht : jsParseInt (String.mk t) = some nnn)
    (hdash : ∀ c ∈ t, c ≠ '-') :
    parseOneRange size ('-' :: t) =
      if size - nnn > size - 1 ∨ size - nnn < 0 then none
      else some ⟨size - nnn, size - 1⟩ := by
  have hsplit : splitListC '-' ('-' :: t) = [[], t] := by
    unfold splitListC
    have h1 : splitListP (fun c => c = '-') t = [t] :=
      splitListP_eq_self (fun c hc => by simpa using hdash c hc)
    simp [splitListP, h1]
  have hclamp : ¬(size - 1 > size - 1) := lt_irrefl _
  unfold parseOneRange
  rw [hsplit]
  simp only [List.headD, List.get?, jsParseInt_nil, ht, Option.map_some', if_neg hclamp]
  by_cases hc : size - nnn > size - 1 ∨ size - nnn < 0
  · have hb : (decide (size - nnn > size - 1) || decide (size - nnn < 0)) = true := by
      rcases hc with h | h <;> simp [h]
    rw [if_pos hb, if_pos hc]
  · have hb : (decide (size - nnn > size - 1) || decide (size - nnn < 0)) = false := by
      rcases not_or.mp hc with ⟨h1, h2⟩
      simp [h1, h2]
    rw [if_neg (fun h => Bool.false_ne_true (hb ▸ h)), if_neg hc]

/-- C3 counterexample: on a file of effective length 3, `Range: bytes=-5`
is not clamped to `[0, 2]`: the parser reports the range unsatisfiable
(`-1`) and the Responder answers 416, not 206. -/
theorem c3_suffix_range_counterexample :
    rangeParser 3 "bytes=-5" true = .unsatisfiable ∧
    (respond stSrv (reqGet { noHeaders with range := some "bytes=-5" }) envNone fsA
      "/cwd" "/a.txt" (some "/a.txt") false ⟨200, []⟩).status = 416 ∧
    rangeParser 3 "bytes=-5" true ≠ .ranges [⟨0, 2⟩] := by
  exact ⟨by decide, by decide, by decide⟩

/-- C3 amended: a suffix range `-nnn` keeps `start = size - nnn` without
clamping, so `nnn > size` makes the single-entry header unsatisfiable
(answered 416 via the `-1` parser outcome), while `0 < nnn ≤ size` yields
the single range `[size - nnn, size - 1]`. -/
theorem c3_suffix_not_clamped (size nnn : Int) (t : List Char)
    (ht : jsParseInt (String.mk t) = some nnn)
    (hsep : ∀ c ∈ t, c ≠ '-' ∧ c ≠ ',' ∧ c ≠ '=') :
    (size < nnn →
      rangeParser size (String.mk ("bytes=-".data ++ t)) true = .unsatisfiable) ∧
    (0 < nnn → nnn ≤ size →
      rangeParser size (String.mk ("bytes=-".data ++ t)) true =
        .ranges [⟨size - nnn, size - 1⟩]) := by
  have htE : splitListP (fun c => c = '=') t = [t] :=
    splitListP_eq_self (fun c hc => by simpa using (hsep c hc).2.2)
  have htC : splitListP (fun c => c = ',') ('-' :: t) = ['-' :: t] := by
    refine splitListP_eq_self ?_
    intro c hc
    rcases List.mem_cons.mp hc with h | h
    · subst h; decide
    · simpa using (hsep c h).2.1
  have hslice : sliceAfterEq
      (String.mk ('b' :: 'y' :: 't' :: 'e' :: 's' :: '=' :: '-' :: t)) =
      some ('-' :: t) := by
    unfold sliceAfterEq splitListC
    simp [splitListP, htE, List.intercalate]
  have hstr : String.mk ("bytes=-".data ++ t) =
      String.mk ('b' :: 'y' :: 't' :: 'e' :: 's' :: '=' :: '-' :: t) := rfl
  have hpr := parseOneRange_suffix size nnn t ht (fun c hc => (hsep c hc).1)
  constructor
  · intro hlt
    have hnone : parseOneRange size ('-' :: t) = none := by
      rw [hpr, if_pos (Or.inr (by omega))]
    rw [hstr]
    simp only [rangeParser, hslice, splitListC, htC, List.filterMap_cons, hnone,
      List.filterMap_nil]
    simp
  · intro h0 hle
    have hsome : parseOneRange size ('-' :: t) = some ⟨size - nnn, size - 1⟩ := by
      rw [hpr, if_neg (by omega)]
    rw [hstr]
    simp only [rangeParser, hslice, splitListC, htC, List.filterMap_cons, hsome,
      List.filterMap_nil]
    rw [if_neg (by simp)]
    simp [combineRanges, combineRangesIdx, mapWithIndex, mergeLoop,
      List.insertionSort, List.orderedInsert, mapWithoutIndex, List.enum,
      List.enumFrom]

/-- C3 witness: the amended theorem at `t = "5"` — unsatisfiable on size 3,
`[5, 9]` on size 10. -/
theorem c3_suffix_not_clamped_witness :
    rangeParser 3 "bytes=-5" true = .unsatisfiable ∧
    rangeParser 10 "bytes=-5" true = .ranges [⟨5, 9⟩] := by
  constructor
  · exact (c3_suffix_not_clamped 3 5 ['5'] (by decide) (by decide)).1 (by decide)
  · have h := (c3_suffix_not_clamped 10 5 ['5'] (by decide) (by decide)).2
      (by decide) (by decide)
    exact h

/-- C4 counterexample: with response `ETag: W/"x"` and request
`If-Match: "x"`, no token matches under the two comparisons stated by the
claim (`tok == etag` or `tok == "W/" + etag`), so the claim demands a 412 —
but the code also accepts `"W/" + tok == etag` and reports no precondition
failure. -/
theorem c4_if_match_counterexample :
    isPreconditionFailure (reqGet { noHeaders with ifMatch := some "\x22x\x22" })
      ⟨200, [("etag", "W/\x22x\x22")]⟩ envNone = false ∧
    ∀ tok ∈ parseTokenList "\x22x\x22",
      tok ≠ "W/\x22x\x22" ∧ tok ≠ "W/" ++ "W/\x22x\x22" := by
  exact ⟨by decide, by decide⟩

/-- C4 amended: with a truthy `If-Match`: no truthy `ETag` fails (412) even
for `*`; `*` with an `ETag` succeeds; otherwise the precondition fails
exactly when every comma/space token fails all three comparisons
`tok == etag`, `tok == "W/" + etag` and `"W/" + tok == etag`. -/
theorem c4_if_match_precondition (req : Req) (res : ResState) (env : Env) (m : String)
    (hm : truthy req.headers.ifMatch = some m) :
    (truthy (getHeaderRes res "ETag") = none →
      isPreconditionFailure req res env = true) ∧
    ∀ e, truthy (getHeaderRes res "ETag") = some e →
      (m = "*" → isPreconditionFailure req res env = false) ∧
      (m ≠ "*" →
        (isPreconditionFailure req res env = true ↔
          ∀ tok ∈ parseTokenList m,
            tok ≠ e ∧ tok ≠ "W/" ++ e ∧ "W/" ++ tok ≠ e)) := by
  constructor
  · intro he
    simp [isPreconditionFailure, hm, he]
  · intro e he
    constructor
    · intro hstar
      simp [isPreconditionFailure, hm, he, hstar]
    · intro hne
      simp [isPreconditionFailure, hm, he, hne, List.all_eq_true, and_assoc]

/-- C4 witness: the amended theorem applied at `If-Match: *` with an ETag
present — no precondition failure. -/
theorem c4_if_match_precondition_witness :
    isPreconditionFailure (reqGet { noHeaders with ifMatch := some "*" })
      ⟨200, [("etag", "\x22z\x22")]⟩ envNone = false := by
  exact ((c4_if_match_precondition (reqGet { noHeaders with ifMatch := some "*" })
    ⟨200, [("etag", "\x22z\x22")]⟩ envNone "*" (by decide)).2 "\x22z\x22"
    (by decide)).1 rfl

/-- C5 counterexample: `Range: bytes=10-` on a 3-byte file (unsatisfiable,
no `If-Range`, no error listener) is answered 416 with
`Content-Range: bytes */3` — but the body is the HTML error document of the
built-in error writer, not empty as the claim states. -/
theorem c5_416_body_is_html_not_empty :
    (respond stSrv (reqGet { noHeaders with range := some "bytes=10-" }) envNone fsA
      "/cwd" "/a.txt" (some "/a.txt") false ⟨200, []⟩).status = 416 ∧
    getHeaderRes ⟨416, (respond stSrv (reqGet { noHeaders with range := some "bytes=10-" })
      envNone fsA "/cwd" "/a.txt" (some "/a.txt") false ⟨200, []⟩).headers⟩
      "Content-Range" = some "bytes */3" ∧
    (respond stSrv (reqGet { noHeaders with range := some "bytes=10-" }) envNone fsA
      "/cwd" "/a.txt" (some "/a.txt") false ⟨200, []⟩).body =
      .htmlDoc (createHtmlDocument "Error"
        (escapeHtml (getStatusCodeMessage 416))) ∧
    (respond stSrv (reqGet { noHeaders with range := some "bytes=10-" }) envNone fsA
      "/cwd" "/a.txt" (some "/a.txt") false ⟨200, []⟩).body ≠ .empty := by
  exact ⟨by decide, by decide, by decide, by decide⟩

/-- C5 amended: when `acceptRanges` is on, the `Range` header matches
`/^ *bytes=/`, `If-Range` is fresh, the parse against the effective length
is unsatisfiable, and the conditional-GET checks do not fire, `send` raises
the 416 error carrying `Content-Range: bytes */<len>` (with `len` the
post-`start`/`end` effective length), and the built-in error writer answers
status 416, that `Content-Range` header, and the HTML error document as body
(not an empty body). -/
theorem c5_unsatisfiable_range (st : SendStreamState) (req : Req) (env : Env)
    (path : String) (stat : StatInfo) (res0 : ResState)
    (hpre : isConditionalGET req = true →
      isPreconditionFailure req (typeField env path (setHeaderFields st stat res0)) env = false)
    (hfr : isConditionalGET req = true →
      (isCachable (typeField env path (setHeaderFields st stat res0)) && isFresh env) = false)
    (har : st.acceptRanges = true)
    (hbr : bytesRangeTest req.headers.range = true)
    (hrf : isRangeFresh req (typeField env path (setHeaderFields st stat res0)) env = true)
    (hunsat : rangeParser (effectiveLen st stat.size (st.startOpt.getD 0))
      (req.headers.range.getD "") true = .unsatisfiable) :
    sendModel st req env path stat false res0 =
      .errAction 416 [("Content-Range",
        "bytes */" ++ toString (effectiveLen st stat.size (st.startOpt.getD 0)))] ∧
    (actionToFinal (sendModel st req env path stat false res0)).status = 416 ∧
    getHeaderRes ⟨416, (actionToFinal (sendModel st req env path stat false res0)).headers⟩
      "Content-Range" =
      some ("bytes */" ++ toString (effectiveLen st stat.size (st.startOpt.getD 0))) ∧
    (actionToFinal (sendModel st req env path stat false res0)).body =
      .htmlDoc (createHtmlDocument "Error" (escapeHtml (getStatusCodeMessage 416))) ∧
    (actionToFinal (sendModel st req env path stat false res0)).body ≠ .empty := by
  have h1 : (isConditionalGET req &&
      isPreconditionFailure req (typeField env path (setHeaderFields st stat res0)) env) =
      false := by
    cases hcg : isConditionalGET req
    · rfl
    · simp [hpre hcg]
  have h2 : (isConditionalGET req &&
      (isCachable (typeField env path (setHeaderFields st stat res0)) && isFresh env)) =
      false := by
    cases hcg : isConditionalGET req
    · rfl
    · simp [hfr hcg]
  have hmain : sendModel st req env path stat false res0 =
      .errAction 416 [("Content-Range",
        "bytes */" ++ toString (effectiveLen st stat.size (st.startOpt.getD 0)))] := by
    simp only [sendModel, Bool.false_eq_true, if_false, h1, h2, har, hbr,
      Bool.and_self, if_true, hrf, Bool.not_true, hunsat]
    rfl
  refine ⟨hmain, ?_, ?_, ?_, ?_⟩
  · rw [hmain]; rfl
  · rw [hmain]; rfl
  · rw [hmain]; rfl
  · rw [hmain]
    intro hbad
    exact BodyKind.noConfusion hbad

/-- C5 witness: the amended theorem at the concrete 3-byte file with
`Range: bytes=10-`. -/
theorem c5_unsatisfiable_range_witness :
    sendModel stSrv (reqGet { noHeaders with range := some "bytes=10-" }) envNone
      "/srv/a.txt" ⟨3, "Thu, 01 Jan 1970 00:00:00 GMT", "\x22etagA\x22"⟩ false ⟨200, []⟩ =
      .errAction 416 [("Content-Range", "bytes */" ++ toString
        (effectiveLen stSrv 3 ((stSrv.startOpt).getD 0)))] := by
  exact (c5_unsatisfiable_range stSrv (reqGet { noHeaders with range := some "bytes=10-" })
    envNone "/srv/a.txt" ⟨3, "Thu, 01 Jan 1970 00:00:00 GMT", "\x22etagA\x22"⟩ ⟨200, []⟩
    (by decide) (by decide) (by decide) (by decide) (by decide) (by decide)).1

/-- C6: when a conditional GET passes the preconditions, the status is
cacheable and the freshness check reports fresh, `send` answers 304 with an
empty body, and its headers are exactly the composed headers filtered to
drop every name starting with `content-` except `content-location` — every
other header kept with its position and value. -/
theorem c6_not_modified_strips_content_headers (st : SendStreamState) (req : Req)
    (env : Env) (path : String) (stat : StatInfo) (res0 : ResState)
    (hcg : isConditionalGET req = true)
    (hpre : isPreconditionFailure req (typeField env path (setHeaderFields st stat res0)) env = false)
    (hca : isCachable (typeField env path (setHeaderFields st stat res0)) = true)
    (hfresh : isFresh env = true) :
    actionToFinal (sendModel st req env path stat false res0) =
      ⟨304, (typeField env path (setHeaderFields st stat res0)).headers.filter
        (fun kv => !(isPrefixList "content-".data (lowerStr kv.1).data &&
          lowerStr kv.1 != "content-location")), .empty⟩ := by
  have h1 : (isConditionalGET req &&
      isPreconditionFailure req (typeField env path (setHeaderFields st stat res0)) env) =
      false := by simp [hcg, hpre]
  have h2 : (isConditionalGET req &&
      (isCachable (typeField env path (setHeaderFields st stat res0)) && isFresh env)) =
      true := by simp [hcg, hca, hfresh]
  simp only [sendModel, Bool.false_eq_true, if_false, h1, h2, if_true]
  rfl

/-- C6 witness: `If-None-Match: *` on the 3-byte file with a fresh cache —
304, empty body, `Content-Type` gone, validator headers kept. -/
theorem c6_not_modified_strips_content_headers_witness :
    actionToFinal (sendModel stSrv (reqGet { noHeaders with ifNoneMatch := some "*" })
      { envNone with freshResult := true } "/srv/a.txt"
      ⟨3, "Thu, 01 Jan 1970 00:00:00 GMT", "\x22etagA\x22"⟩ false ⟨200, []⟩) =
      ⟨304, (typeField { envNone with freshResult := true } "/srv/a.txt"
        (setHeaderFields stSrv ⟨3, "Thu, 01 Jan 1970 00:00:00 GMT", "\x22etagA\x22"⟩
          ⟨200, []⟩)).headers.filter
        (fun kv => !(isPrefixList "content-".data (lowerStr kv.1).data &&
          lowerStr kv.1 != "content-location")), .empty⟩ := by
  exact c6_not_modified_strips_content_headers stSrv
    (reqGet { noHeaders with ifNoneMatch := some "*" })
    { envNone with freshResult := true } "/srv/a.txt"
    ⟨3, "Thu, 01 Jan 1970 00:00:00 GMT", "\x22etagA\x22"⟩ ⟨200, []⟩
    (by decide) (by decide) (by decide) (by decide)

/-! ## Range combination: soundness of the merge loop (for C8) -/

/-- Every range the parser loop keeps satisfies
`0 ≤ start ≤ end ≤ size - 1`. -/
theorem parseOneRange_sound {size : Int} {s : List Char} {r : IRangeItem}
    (h : parseOneRange size s = some r) :
    0 ≤ r.start ∧ r.start ≤ r.stop ∧ r.stop ≤ size - 1 := by
  simp only [parseOneRange] at h
  split at h
  next st e heq =>
    by_cases hcl : e > size - 1
    · simp only [if_pos hcl] at h
      by_cases hg : (decide (st > size - 1) || decide (st < 0)) = true
      · rw [if_pos hg] at h; cases h
      · rw [if_neg hg] at h
        injection h with h'
        subst h'
        simp only [Bool.or_eq_true, decide_eq_true_eq, not_or, not_lt] at hg
        exact ⟨hg.2, hg.1, le_refl _⟩
    · simp only [if_neg hcl] at h
      by_cases hg : (decide (st > e) || decide (st < 0)) = true
      · rw [if_pos hg] at h; cases h
      · rw [if_neg hg] at h
        injection h with h'
        subst h'
        simp only [Bool.or_eq_true, decide_eq_true_eq, not_or, not_lt] at hg
        refine ⟨hg.2, hg.1, ?_⟩
        show e ≤ size - 1
        omega
  next heq => cases h

theorem mergeLoop_stop_le (B : Int) :
    ∀ (rest : List IRangeIdx) (cur : IRangeIdx), cur.stop ≤ B →
      (∀ x ∈ rest, x.stop ≤ B) → ∀ y ∈ mergeLoop cur rest, y.stop ≤ B
  | [], cur, h1, _, y, hy => by
    simp only [mergeLoop, List.mem_singleton] at hy
    subst hy
    exact h1
  | r :: rest, cur, h1, h2, y, hy => by
    unfold mergeLoop at hy
    split at hy
    · rcases List.mem_cons.mp hy with h | h
      · subst h; exact h1
      · exact mergeLoop_stop_le B rest r (h2 r (by simp))
          (fun x hx => h2 x (by simp [hx])) y h
    · split at hy
      · exact mergeLoop_stop_le B rest ⟨cur.start, r.stop, min cur.index r.index⟩
          (h2 r (by simp)) (fun x hx => h2 x (by simp [hx])) y hy
      · exact mergeLoop_stop_le B rest cur h1 (fun x hx => h2 x (by simp [hx])) y hy

theorem mergeLoop_start_nonneg :
    ∀ (rest : List IRangeIdx) (cur : IRangeIdx), 0 ≤ cur.start →
      (∀ x ∈ rest, 0 ≤ x.start) → ∀ y ∈ mergeLoop cur rest, 0 ≤ y.start
  | [], cur, h1, _, y, hy => by
    simp only [mergeLoop, List.mem_singleton] at hy
    subst hy
    exact h1
  | r :: rest, cur, h1, h2, y, hy => by
    unfold mergeLoop at hy
    split at hy
    · rcases List.mem_cons.mp hy with h | h
      · subst h; exact h1
      · exact mergeLoop_start_nonneg rest r (h2 r (by simp))
          (fun x hx => h2 x (by simp [hx])) y h
    · split at hy
      · exact mergeLoop_start_nonneg rest ⟨cur.start, r.stop, min cur.index r.index⟩
          h1 (fun x hx => h2 x (by simp [hx])) y hy
      · exact mergeLoop_start_nonneg rest cur h1 (fun x hx => h2 x (by simp [hx])) y hy

theorem mergeLoop_wf :
    ∀ (rest : List IRangeIdx) (cur : IRangeIdx), cur.start ≤ cur.stop →
      (∀ x ∈ rest, x.start ≤ x.stop) → ∀ y ∈ mergeLoop cur rest, y.start ≤ y.stop
  | [], cur, h1, _, y, hy => by
    simp only [mergeLoop, List.mem_singleton] at hy
    subst hy
    exact h1
  | r :: rest, cur, h1, h2, y, hy => by
    unfold mergeLoop at hy
    split at hy
    · rcases List.mem_cons.mp hy with h | h
      · subst h; exact h1
      · exact mergeLoop_wf rest r (h2 r (by simp))
          (fun x hx => h2 x (by simp [hx])) y h
    · split at hy
      next hext =>
        refine mergeLoop_wf rest ⟨cur.start, r.stop, min cur.index r.index⟩ ?_
          (fun x hx => h2 x (by simp [hx])) y hy
        simp only []
        omega
      · exact mergeLoop_wf rest cur h1 (fun x hx => h2 x (by simp [hx])) y hy

theorem mergeLoop_start_ge :
    ∀ (rest : List IRangeIdx) (cur : IRangeIdx), cur.start ≤ cur.stop →
      (∀ x ∈ rest, x.start ≤ x.stop) → (∀ x ∈ rest, cur.start ≤ x.start) →
      rest.Pairwise startLE → ∀ y ∈ mergeLoop cur rest, cur.start ≤ y.start
  | [], cur, h1, _, _, _, y, hy => by
    simp only [mergeLoop, List.mem_singleton] at hy
    subst hy
    exact le_refl _
  | r :: rest, cur, h1, h2, h3, h4, y, hy => by
    have h4' := List.pairwise_cons.mp h4
    unfold mergeLoop at hy
    split at hy
    next hgap =>
      rcases List.mem_cons.mp hy with h | h
      · subst h; exact le_refl _
      · have := mergeLoop_start_ge rest r (h2 r (by simp))
          (fun x hx => h2 x (by simp [hx])) h4'.1 h4'.2 y h
        have hrc : cur.start ≤ r.start := by omega
        exact le_trans hrc this
    · split at hy
      next hext =>
        have := mergeLoop_start_ge rest ⟨cur.start, r.stop, min cur.index r.index⟩
          (by simp only []; omega) (fun x hx => h2 x (by simp [hx]))
          (fun x hx => le_trans (h3 r (by simp)) (h4'.1 x hx))
          h4'.2 y hy
        exact this
      · exact mergeLoop_start_ge rest cur h1 (fun x hx => h2 x (by simp [hx]))
          (fun x hx => h3 x (by simp [hx])) h4'.2 y hy

theorem mergeLoop_gap :
    ∀ (rest : List IRangeIdx) (cur : IRangeIdx), cur.start ≤ cur.stop →
      (∀ x ∈ rest, x.start ≤ x.stop) → (∀ x ∈ rest, cur.start ≤ x.start) →
      rest.Pairwise startLE →
      (mergeLoop cur rest).Pairwise (fun a b => a.stop + 1 < b.start)
  | [], cur, _, _, _, _ => by
    simp [mergeLoop]
  | r :: rest, cur, h1, h2, h3, h4 => by
    have h4' := List.pairwise_cons.mp h4
    unfold mergeLoop
    split
    next hgap =>
      refine List.pairwise_cons.mpr ⟨?_, ?_⟩
      · intro y hy
        have hge := mergeLoop_start_ge rest r (h2 r (by simp))
          (fun x hx => h2 x (by simp [hx])) h4'.1 h4'.2 y hy
        omega
      · exact mergeLoop_gap rest r (h2 r (by simp))
          (fun x hx => h2 x (by simp [hx])) h4'.1 h4'.2
    · split
      next hext =>
        exact mergeLoop_gap rest ⟨cur.start, r.stop, min cur.index r.index⟩
          (by simp only []; omega) (fun x hx => h2 x (by simp [hx]))
          (fun x hx => le_trans (h3 r (by simp)) (h4'.1 x hx)) h4'.2
      · exact mergeLoop_gap rest cur h1 (fun x hx => h2 x (by simp [hx]))
          (fun x hx => h3 x (by simp [hx])) h4'.2

/-- The second component of an `enumFrom` entry is a member of the list. -/
theorem snd_mem_of_mem_enumFrom {α : Type} :
    ∀ {l : List α} {n : Nat} {p : Nat × α}, p ∈ l.enumFrom n → p.2 ∈ l := by
  intro l
  induction l with
  | nil => intro n p hp; simp at hp
  | cons a t ih =>
    intro n p hp
    rw [List.enumFrom_cons] at hp
    rcases List.mem_cons.mp hp with h | h
    · subst h; simp
    · exact List.mem_cons.mpr (Or.inr (ih h))

theorem mapWithIndex_strip_mem {l : List IRangeItem} {y : IRangeIdx}
    (hy : y ∈ mapWithIndex l) : (⟨y.start, y.stop⟩ : IRangeItem) ∈ l := by
  unfold mapWithIndex at hy
  rcases List.mem_map.mp hy with ⟨p, hp, hpy⟩
  have hmem : p.2 ∈ l := snd_mem_of_mem_enumFrom hp
  rw [← hpy]
  exact hmem

/-- Soundness of `combineRanges` before the index strip: bounds carry over
from the parsed ranges, and the output is pairwise non-overlapping and
non-adjacent in the symmetric sense. -/
theorem combineRangesIdx_spec (B : Int) (parsed : List IRangeItem)
    (hlow : ∀ r ∈ parsed, 0 ≤ r.start)
    (hwf : ∀ r ∈ parsed, r.start ≤ r.stop)
    (hhigh : ∀ r ∈ parsed, r.stop ≤ B) :
    (∀ y ∈ combineRangesIdx parsed, 0 ≤ y.start ∧ y.start ≤ y.stop ∧ y.stop ≤ B) ∧
    (combineRangesIdx parsed).Pairwise
      (fun a b => a.stop + 1 < b.start ∨ b.stop + 1 < a.start) := by
  unfold combineRangesIdx
  have hmemMW : ∀ y ∈ mapWithIndex parsed,
      0 ≤ y.start ∧ y.start ≤ y.stop ∧ y.stop ≤ B := by
    intro y hy
    have hm := mapWithIndex_strip_mem hy
    exact ⟨hlow _ hm, hwf _ hm, hhigh _ hm⟩
  have hperm1 := List.perm_insertionSort startLE (mapWithIndex parsed)
  have hordmem : ∀ y ∈ (mapWithIndex parsed).insertionSort startLE,
      0 ≤ y.start ∧ y.start ≤ y.stop ∧ y.stop ≤ B :=
    fun y hy => hmemMW y (hperm1.mem_iff.mp hy)
  have hsorted : ((mapWithIndex parsed).insertionSort startLE).Pairwise startLE :=
    List.sorted_insertionSort startLE (mapWithIndex parsed)
  rcases hord : (mapWithIndex parsed).insertionSort startLE with _ | ⟨c, rest⟩
  · simp
  · rw [hord] at hordmem hsorted
    have hsorted' := List.pairwise_cons.mp hsorted
    have h1 : c.start ≤ c.stop := (hordmem c (by simp)).2.1
    have h2 : ∀ x ∈ rest, x.start ≤ x.stop :=
      fun x hx => (hordmem x (by simp [hx])).2.1
    have h3 : ∀ x ∈ rest, c.start ≤ x.start := fun x hx => hsorted'.1 x hx
    have h4 : rest.Pairwise startLE := hsorted'.2
    have hgap := mergeLoop_gap rest c h1 h2 h3 h4
    have hm_wf := mergeLoop_wf rest c h1 h2
    have hm_nonneg := mergeLoop_start_nonneg rest c (hordmem c (by simp)).1
      (fun x hx => (hordmem x (by simp [hx])).1)
    have hm_stop := mergeLoop_stop_le B rest c (hordmem c (by simp)).2.2
      (fun x hx => (hordmem x (by simp [hx])).2.2)
    have hperm2 := List.perm_insertionSort indexLE (mergeLoop c rest)
    constructor
    · intro y hy
      have hy' : y ∈ mergeLoop c rest := hperm2.mem_iff.mp hy
      exact ⟨hm_nonneg y hy', hm_wf y hy', hm_stop y hy'⟩
    · have hsym : ∀ {x y : IRangeIdx},
          (x.stop + 1 < y.start ∨ y.stop + 1 < x.start) →
          (y.stop + 1 < x.start ∨ x.stop + 1 < y.start) := fun h => h.symm
      have hgap' : (mergeLoop c rest).Pairwise
          (fun a b => a.stop + 1 < b.start ∨ b.stop + 1 < a.start) :=
        hgap.imp (fun h => Or.inl h)
      exact (List.Perm.pairwise_iff hsym hperm2).mpr hgap'

/-- The smallest original client position among the input ranges covered by
(merged into) an output range. -/
def minCoveredPos (inp : List IRangeItem) (r : IRangeItem) : Option Nat :=
  ((inp.enum.filter (fun p => r.start ≤ p.2.start && p.2.stop ≤ r.stop)).map (·.1)).min?

/-- C8 counterexample: for `bytes=2-3,20-30,0-10` on size 100, the input
range `2-3` (client position 0) is wholly contained in the merged output
`0-10`, but the skip branch of the merge loop never takes its index: the
combined output is `[20-30, 0-10]` although the smallest original position
among the inputs merged into `0-10` is 0, smaller than position 1 of
`20-30` — the claimed ordering key would give `[0-10, 20-30]`. -/
theorem c8_contained_range_order_counterexample :
    rangeParser 100 "bytes=2-3,20-30,0-10" false =
      .ranges [⟨2, 3⟩, ⟨20, 30⟩, ⟨0, 10⟩] ∧
    rangeParser 100 "bytes=2-3,20-30,0-10" true = .ranges [⟨20, 30⟩, ⟨0, 10⟩] ∧
    minCoveredPos [⟨2, 3⟩, ⟨20, 30⟩, ⟨0, 10⟩] ⟨20, 30⟩ = some 1 ∧
    minCoveredPos [⟨2, 3⟩, ⟨20, 30⟩, ⟨0, 10⟩] ⟨0, 10⟩ = some 0 := by
  exact ⟨by decide, by decide, by decide, by decide⟩

/-- C8 amended: whenever `rangeParser` with `combine` returns a list, every
range satisfies `0 ≤ start ≤ end ≤ size - 1`, the ranges are pairwise
non-overlapping and non-adjacent (of any two, the one positioned later in
the file starts more than one byte past the other end), and the list is the
index strip of `combineRangesIdx`, sorted by its index key — the key is the
minimum client position among the ranges that started or extended each
merged range; a range wholly contained in the current merged range does not
contribute its position (see the counterexample). -/
theorem c8_combine_disjoint_bounded_sorted (size : Int) (str : String)
    (l : List IRangeItem) (h : rangeParser size str true = .ranges l) :
    (∀ r ∈ l, 0 ≤ r.start ∧ r.start ≤ r.stop ∧ r.stop ≤ size - 1) ∧
    l.Pairwise (fun a b => a.stop + 1 < b.start ∨ b.stop + 1 < a.start) ∧
    (∀ s, sliceAfterEq str = some s →
      l = (combineRangesIdx ((splitListC ',' s).filterMap (parseOneRange size))).map
        mapWithoutIndex ∧
      (combineRangesIdx ((splitListC ',' s).filterMap (parseOneRange size))).Pairwise
        indexLE) := by
  simp only [rangeParser] at h
  split at h
  · cases h
  next s hs =>
    split at h
    · cases h
    next hlen =>
      injection h with hl
      rw [if_pos trivial] at hl
      have hbounds : ∀ r ∈ (splitListC ',' s).filterMap (parseOneRange size),
          0 ≤ r.start ∧ r.start ≤ r.stop ∧ r.stop ≤ size - 1 := by
        intro r hr
        rcases List.mem_filterMap.mp hr with ⟨a, _, hfa⟩
        exact parseOneRange_sound hfa
      have hspec := combineRangesIdx_spec (size - 1)
        ((splitListC ',' s).filterMap (parseOneRange size))
        (fun r hr => (hbounds r hr).1) (fun r hr => (hbounds r hr).2.1)
        (fun r hr => (hbounds r hr).2.2)
      have hcr : combineRanges ((splitListC ',' s).filterMap (parseOneRange size)) = l := hl
      refine ⟨?_, ?_, ?_⟩
      · intro r hr
        rw [← hcr] at hr
        unfold combineRanges at hr
        rcases List.mem_map.mp hr with ⟨y, hy, hyr⟩
        rw [← hyr]
        exact hspec.1 y hy
      · rw [← hcr]
        unfold combineRanges
        exact List.pairwise_map.mpr (hspec.2.imp (fun hab => hab))
      · intro s' hs'
        rw [hs] at hs'
        injection hs' with hss
        subst hss
        constructor
        · rw [← hcr]
          rfl
        · unfold combineRangesIdx
          exact List.sorted_insertionSort indexLE _

/-- C8 witness: the amended theorem at `bytes=0-5,100-150` on size 200. -/
theorem c8_combine_disjoint_bounded_sorted_witness :
    (∀ r ∈ [(⟨0, 5⟩ : IRangeItem), ⟨100, 150⟩],
      0 ≤ r.start ∧ r.start ≤ r.stop ∧ r.stop ≤ 200 - 1) ∧
    ([(⟨0, 5⟩ : IRangeItem), ⟨100, 150⟩]).Pairwise
      (fun a b => a.stop + 1 < b.start ∨ b.stop + 1 < a.start) := by
  have h := c8_combine_disjoint_bounded_sorted 200 "bytes=0-5,100-150"
    [⟨0, 5⟩, ⟨100, 150⟩] (by decide)
  exact ⟨h.1, h.2.1⟩

/-! ## The Content-Range invariant (C7) -/

/-- Whether a finished response carries a header. -/
def hasHeaderFinal (fr : FinalResponse) (k : String) : Bool :=
  (getHeaderRes ⟨fr.status, fr.headers⟩ k).isSome

theorem getHeaderRes_ite_set (c : Prop) [Decidable c] (res : ResState) (key v k : String)
    (h : lowerStr k ≠ lowerStr key) :
    getHeaderRes (if c then setHeaderRes res key v else res) k = getHeaderRes res k := by
  split
  · exact getHeaderRes_setHeaderRes_ne res key k v h
  · rfl

theorem statusCode_ite_set (c : Prop) [Decidable c] (res : ResState) (key v : String) :
    (if c then setHeaderRes res key v else res).statusCode = res.statusCode := by
  split
  · exact statusCode_setHeaderRes res key v
  · rfl

theorem getHeaderRes_setHeaderFields_ne (st : SendStreamState) (stat : StatInfo)
    (res : ResState) (k : String)
    (h1 : lowerStr k ≠ lowerStr "Accept-Ranges")
    (h2 : lowerStr k ≠ lowerStr "Cache-Control")
    (h3 : lowerStr k ≠ lowerStr "Last-Modified")
    (h4 : lowerStr k ≠ lowerStr "ETag") :
    getHeaderRes (setHeaderFields st stat res) k = getHeaderRes res k := by
  unfold setHeaderFields
  rw [getHeaderRes_ite_set _ _ _ _ _ h4, getHeaderRes_ite_set _ _ _ _ _ h3,
    getHeaderRes_ite_set _ _ _ _ _ h2, getHeaderRes_ite_set _ _ _ _ _ h1]

theorem statusCode_setHeaderFields (st : SendStreamState) (stat : StatInfo)
    (res : ResState) :
    (setHeaderFields st stat res).statusCode = res.statusCode := by
  unfold setHeaderFields
  rw [statusCode_ite_set, statusCode_ite_set, statusCode_ite_set, statusCode_ite_set]

theorem getHeaderRes_typeField_ne (env : Env) (path : String) (res : ResState)
    (k : String) (h : lowerStr k ≠ lowerStr "Content-Type") :
    getHeaderRes (typeField env path res) k = getHeaderRes res k := by
  unfold typeField
  split
  · rfl
  · split
    · rfl
    · split
      · rfl
      · exact getHeaderRes_setHeaderRes_ne res _ k _ h

theorem statusCode_typeField (env : Env) (path : String) (res : ResState) :
    (typeField env path res).statusCode = res.statusCode := by
  unfold typeField
  split
  · rfl
  · split
    · rfl
    · split
      · rfl
      · exact statusCode_setHeaderRes res _ _

theorem hasCR_errorFinal_nil (s : Nat) :
    hasHeaderFinal (errorFinal s []) "Content-Range" = false := rfl

theorem hasCR_errorFinal_cr (s : Nat) (v : String) :
    hasHeaderFinal (errorFinal s [("Content-Range", v)]) "Content-Range" = true := rfl

theorem status_errorFinal (s : Nat) (hs : List (String × String)) :
    (errorFinal s hs).status = s := rfl

theorem getHeaderRes_notModified_none {res : ResState} {k : String}
    (h : getHeaderRes res k = none) : getHeaderRes (notModifiedRes res) k = none := by
  unfold notModifiedRes removeContentHeaderFields
  unfold getHeaderRes at h ⊢
  rw [Option.map_eq_none'] at h ⊢
  rw [List.find?_eq_none] at h ⊢
  intro x hx
  exact h x (List.mem_filter.mp hx).1

/-- `finishSend` passes the `Content-Range` presence and the status of the
response it was given through to the finished response. -/
theorem finishSend_hasCR_status (req : Req) (res : ResState) (off len : Int) :
    hasHeaderFinal (actionToFinal (finishSend req res off len)) "Content-Range" =
      (getHeaderRes res "Content-Range").isSome ∧
    (actionToFinal (finishSend req res off len)).status = res.statusCode := by
  unfold finishSend
  split
  · constructor
    · show (getHeaderRes (setHeaderRes res "Content-Length" (toString len))
        "Content-Range").isSome = _
      rw [getHeaderRes_setHeaderRes_ne _ _ _ _ (by decide)]
    · exact statusCode_setHeaderRes res _ _
  · constructor
    · show (getHeaderRes (setHeaderRes res "Content-Length" (toString len))
        "Content-Range").isSome = _
      rw [getHeaderRes_setHeaderRes_ne _ _ _ _ (by decide)]
    · exact statusCode_setHeaderRes res _ _

/-- The Content-Range invariant holds for everything `send` produces (from a
pristine response): the finished response carries `Content-Range` exactly
when its status is 206 or 416. -/
theorem c7_sendModel_invariant (st : SendStreamState) (req : Req) (env : Env)
    (path : String) (stat : StatInfo) (hs : Bool) :
    (hasHeaderFinal (actionToFinal (sendModel st req env path stat hs ⟨200, []⟩))
        "Content-Range" = true ↔
      (actionToFinal (sendModel st req env path stat hs ⟨200, []⟩)).status = 206 ∨
      (actionToFinal (sendModel st req env path stat hs ⟨200, []⟩)).status = 416) := by
  have hcr : getHeaderRes (typeField env path (setHeaderFields st stat ⟨200, []⟩))
      "Content-Range" = none := by
    rw [getHeaderRes_typeField_ne _ _ _ _ (by decide)]
    rw [getHeaderRes_setHeaderFields_ne _ _ _ _ (by decide) (by decide) (by decide)
      (by decide)]
    rfl
  have hst : (typeField env path (setHeaderFields st stat ⟨200, []⟩)).statusCode = 200 := by
    rw [statusCode_typeField, statusCode_setHeaderFields]
  simp only [sendModel]
  split
  · simp only [actionToFinal]
    rw [hasCR_errorFinal_nil, status_errorFinal]
    simp
  · split
    · simp only [actionToFinal]
      rw [hasCR_errorFinal_nil, status_errorFinal]
      simp
    · split
      · -- 304
        have h1 := getHeaderRes_notModified_none (k := "Content-Range") hcr
        constructor
        · intro habs
          exfalso
          have : (getHeaderRes (notModifiedRes
              (typeField env path (setHeaderFields st stat ⟨200, []⟩)))
              "Content-Range").isSome = true := habs
          rw [h1] at this
          cases this
        · intro habs
          exfalso
          have h304 : (actionToFinal (SendAction.notModifiedAction (notModifiedRes
              (typeField env path (setHeaderFields st stat ⟨200, []⟩))))).status = 304 := rfl
          rw [h304] at habs
          rcases habs with h' | h' <;> cases h'
      · split
        · -- range header handled
          split
          · -- unsatisfiable → 416
            simp only [actionToFinal]
            rw [hasCR_errorFinal_cr, status_errorFinal]
            simp
          · -- ranges
            split
            · -- exactly one range → 206
              next r _ =>
                have hfin := finishSend_hasCR_status req
                  (setHeaderRes { typeField env path (setHeaderFields st stat ⟨200, []⟩)
                      with statusCode := 206 } "Content-Range"
                    (contentRange "bytes"
                      (effectiveLen st stat.size (st.startOpt.getD 0)) (some r)))
                  ((st.startOpt.getD 0) + r.start) (r.stop - r.start + 1)
                rw [hfin.1, hfin.2]
                rw [getHeaderRes_setHeaderRes_self, statusCode_setHeaderRes]
                simp
            · -- several ranges → plain reply
              next =>
                have hfin := finishSend_hasCR_status req
                  (typeField env path (setHeaderFields st stat ⟨200, []⟩))
                  (st.startOpt.getD 0) (effectiveLen st stat.size (st.startOpt.getD 0))
                rw [hfin.1, hfin.2, hcr, hst]
                simp
          · -- stale / malformed → plain reply
            have hfin := finishSend_hasCR_status req
              (typeField env path (setHeaderFields st stat ⟨200, []⟩))
              (st.startOpt.getD 0) (effectiveLen st stat.size (st.startOpt.getD 0))
            rw [hfin.1, hfin.2, hcr, hst]
            simp
        · -- no range handling → plain reply
          have hfin := finishSend_hasCR_status req
            (typeField env path (setHeaderFields st stat ⟨200, []⟩))
            (st.startOpt.getD 0) (effectiveLen st stat.size (st.startOpt.getD 0))
          rw [hfin.1, hfin.2, hcr, hst]
          simp

theorem onStatErrorCode_cases (c : FsErrCode) :
    onStatErrorCode c = 404 ∨ onStatErrorCode c = 500 := by
  cases c <;> simp [onStatErrorCode]

theorem sendFileExtLoop_errOut :
    ∀ (exts : List String) (fs : String → StatResult) (path : String)
      (e : Option FsErrCode) (s : Nat),
      sendFileExtLoop fs path exts e = .errOut s → s = 404 ∨ s = 500
  | [], _, _, none, s, h => by
    injection h with h'
    subst h'
    left
    rfl
  | [], _, _, some c, s, h => by
    injection h with h'
    subst h'
    exact onStatErrorCode_cases c
  | ext :: rest, fs, path, e, s, h => by
    unfold sendFileExtLoop at h
    split at h
    · split at h
      · exact sendFileExtLoop_errOut rest fs path none s h
      · cases h
    · exact sendFileExtLoop_errOut rest fs path _ s h

theorem sendIndexLoop_errOut :
    ∀ (index : List String) (fs : String → StatResult) (path : String)
      (e : Option FsErrCode) (s : Nat),
      sendIndexLoop fs path index e = .errOut s → s = 404 ∨ s = 500
  | [], _, _, none, s, h => by
    injection h with h'
    subst h'
    left
    rfl
  | [], _, _, some c, s, h => by
    injection h with h'
    subst h'
    exact onStatErrorCode_cases c
  | name :: rest, fs, path, e, s, h => by
    simp only [sendIndexLoop] at h
    split at h
    · split at h
      · exact sendIndexLoop_errOut rest fs path none s h
      · cases h
    · exact sendIndexLoop_errOut rest fs path _ s h

theorem sendFileModel_errOut (fs : String → StatResult) (exts : List String)
    (path : String) (s : Nat) (h : sendFileModel fs exts path = .errOut s) :
    s = 404 ∨ s = 500 := by
  unfold sendFileModel at h
  split at h
  next c heq =>
    split at h
    · exact sendFileExtLoop_errOut exts fs path (some .enoent) s h
    · injection h with h'
      subst h'
      exact onStatErrorCode_cases c
  next =>
    split at h
    · cases h
    · cases h

theorem sendIndexModel_errOut (fs : String → StatResult) (index : List String)
    (path : String) (s : Nat) (h : sendIndexModel fs index path = .errOut s) :
    s = 404 ∨ s = 500 :=
  sendIndexLoop_errOut index fs path none s h

theorem pipeDispatch_ne_pipeErr (st : SendStreamState) (rawPath path : String)
    (s : Nat) : pipeDispatch st rawPath path ≠ .pipeErr s := by
  unfold pipeDispatch
  split <;> intro h <;> cases h

theorem pipeDotfiles_pipeErr (st : SendStreamState) (rawPath : String)
    (parts : List String) (path : String) (s : Nat)
    (h : pipeDotfiles st rawPath parts path = .pipeErr s) : s = 403 ∨ s = 404 := by
  unfold pipeDotfiles at h
  split at h
  · split at h
    · exact absurd h (pipeDispatch_ne_pipeErr _ _ _ _)
    · injection h with h'; subst h'; left; rfl
    · injection h with h'; subst h'; right; rfl
  · exact absurd h (pipeDispatch_ne_pipeErr _ _ _ _)

theorem pipeModel_pipeErr (st : SendStreamState) (cwd rawPath : String)
    (decoded : Option String) (s : Nat)
    (h : pipeModel st cwd rawPath decoded = .pipeErr s) :
    s = 400 ∨ s = 403 ∨ s = 404 := by
  simp only [pipeModel] at h
  repeat' split at h
  all_goals first
    | (injection h with h'; subst h'; simp)
    | (rcases pipeDotfiles_pipeErr _ _ _ _ _ h with h' | h' <;> simp [h'])

theorem hasCR_redirectFinal (rawPath : String) :
    hasHeaderFinal (redirectFinal rawPath ⟨200, []⟩) "Content-Range" = false := by
  unfold redirectFinal
  split
  · exact hasCR_errorFinal_nil 403
  · rfl

theorem status_redirectFinal (rawPath : String) :
    (redirectFinal rawPath ⟨200, []⟩).status = 403 ∨
    (redirectFinal rawPath ⟨200, []⟩).status = 301 := by
  unfold redirectFinal
  split
  · left; rfl
  · right; rfl

/-- C7: for every response the Responder itself writes (no listeners, no
pre-set headers), the finished response carries a `Content-Range` header
exactly when its status is 206 or 416 — across path errors (400/403/404),
dotfile rejections, probe errors (404/500), directory redirects (301/403),
precondition failures (412), not-modified replies (304), full and HEAD
replies (200), range replies (206) and unsatisfiable ranges (416, where the
header survives the error writer via the error headers). -/
theorem c7_content_range_iff_status (st : SendStreamState) (req : Req) (env : Env)
    (fs : String → StatResult) (cwd rawPath : String) (decoded : Option String)
    (hs : Bool) :
    (hasHeaderFinal (respond st req env fs cwd rawPath decoded hs ⟨200, []⟩)
        "Content-Range" = true ↔
      (respond st req env fs cwd rawPath decoded hs ⟨200, []⟩).status = 206 ∨
      (respond st req env fs cwd rawPath decoded hs ⟨200, []⟩).status = 416) := by
  unfold respond
  cases hp : pipeModel st cwd rawPath decoded with
  | pipeErr s =>
    simp only []
    rw [hasCR_errorFinal_nil, status_errorFinal]
    rcases pipeModel_pipeErr _ _ _ _ _ hp with h | h | h <;> subst h <;> simp
  | probeIndex path =>
    simp only []
    cases ho : sendIndexModel fs st.index path with
    | serve p stat => exact c7_sendModel_invariant st req env p stat hs
    | redirectDir p =>
      show (hasHeaderFinal (redirectFinal rawPath ⟨200, []⟩) "Content-Range" = true ↔
        (redirectFinal rawPath ⟨200, []⟩).status = 206 ∨
        (redirectFinal rawPath ⟨200, []⟩).status = 416)
      rw [hasCR_redirectFinal]
      rcases status_redirectFinal rawPath with h | h <;> rw [h] <;> simp
    | errOut s2 =>
      show (hasHeaderFinal (errorFinal s2 []) "Content-Range" = true ↔
        (errorFinal s2 []).status = 206 ∨ (errorFinal s2 []).status = 416)
      rw [hasCR_errorFinal_nil, status_errorFinal]
      rcases sendIndexModel_errOut _ _ _ _ ho with h | h <;> subst h <;> simp
  | probeFile path =>
    simp only []
    cases ho : sendFileModel fs st.extensions path with
    | serve p stat => exact c7_sendModel_invariant st req env p stat hs
    | redirectDir p =>
      show (hasHeaderFinal (redirectFinal rawPath ⟨200, []⟩) "Content-Range" = true ↔
        (redirectFinal rawPath ⟨200, []⟩).status = 206 ∨
        (redirectFinal rawPath ⟨200, []⟩).status = 416)
      rw [hasCR_redirectFinal]
      rcases status_redirectFinal rawPath with h | h <;> rw [h] <;> simp
    | errOut s2 =>
      show (hasHeaderFinal (errorFinal s2 []) "Content-Range" = true ↔
        (errorFinal s2 []).status = 206 ∨ (errorFinal s2 []).status = 416)
      rw [hasCR_errorFinal_nil, status_errorFinal]
      rcases sendFileModel_errOut _ _ _ _ ho with h | h <;> subst h <;> simp

end Send
